import Mathlib

/-!
# Verification of the Go Lisp interpreter core

Shallow embedding of the interpreter sources (`ast.go`, the `Token`-based
lexer and parser, `interpreter.go`, `initEnvironment` from `main.go`) and
proofs of the frozen specification claims.

Modelling conventions, stated once:

* Go `int` is modelled as `Int` (overflow is not modelled).
* Go `float64` is modelled as `ℚ` with exact rational arithmetic.  The
  rounding of IEEE-754 `float64` is outside the model; the collapsing test
  `float64(int(x)) == x` of the source is modelled as `x.den = 1`
  (the value is a whole number).
* Go maps are reference values.  `Environment` is an association list and
  an `EnvStore` (list of environments) plays the role of the Go heap:
  a `LispFunction` captures the *index* of its defining environment, which
  models the map-reference capture of the source (`Env: env`), including
  the self-reference that `defun` creates.
* Errors carry only the message text; line/column fields of `LispError`
  are always `0` in evaluation errors of the source and are dropped.
* The evaluator is total by a `fuel` parameter bounding recursion depth;
  running out of fuel produces the designated message "model: out of fuel",
  a model artefact mirroring host-stack exhaustion of the source.
* Builtins of the source mutually recurse with `Eval`; in the model each
  builtin takes the evaluator as an explicit argument `ev`, and `Eval`
  passes itself (at smaller fuel) at the dispatch sites.
-/

namespace LispGo

/-! ## Token-name constants (lexer.go) -/

def FORMAT : String := "format"
def PLUS : String := "+"
def MINUS : String := "-"
def STAR : String := "*"
def SLASH : String := "/"
def PERCENT : String := "%"
def LESS_THAN : String := "<"
def LESS_OR_EQUAL_THAN : String := "<="
def GREATER_THAN : String := ">"
def GREATER_OR_EQUAL_THAN : String := ">="
def EQUAL : String := "="
def IF : String := "if"
def DEFUN : String := "defun"
def LAMBDA : String := "lambda"
def LET : String := "let"
def AND : String := "and"
def OR : String := "or"
def NOT : String := "not"
def LIST : String := "list"
def CAR : String := "car"
def CDR : String := "cdr"
def CONS : String := "cons"
def LENGTH : String := "length"
def APPEND : String := "append"
def POW : String := "pow"
def SQRT : String := "sqrt"
def CONCAT : String := "concat"
def SUBSTRING : String := "substring"
def IS_NUMBER : String := "isNumber"
def IS_STRING : String := "isString"
def READ : String := "read"
def PRINT : String := "print"
def OPEN_BRACKET : Char := '('
def CLOSE_BRACKET : Char := ')'
def DOUBLE_QUOTE : Char := '"'
def EMPTY_STRING : String := " "
def DOUBLE_ANTI_SLASH : Char := '\\'
def ANTI_SLASH_N : Char := '\n'
def DOT : String := "."
def TRUE : String := "true"
def FALSE : String := "false"
def NIL : String := "nil"
def T : String := "t"
def NUMBER : String := "NUMBER"
def FLOAT : String := "FLOAT"
def STRING : String := "STRING"
def IDENTIFIER : String := "IDENTIFIER"
def BOOLEAN : String := "BOOLEAN"

/-! ## Value model (ast.go) -/

/-- The tagged union of runtime values (`LispValue` of `ast.go`).
`func` captures the store index of its defining environment, modelling the
map reference held in the `Env` field of the source's `LispFunction`. -/
inductive LispValue where
  | atom (value : String)
  | num (value : Int)
  | float (value : ℚ)
  | str (value : String)
  | list (elements : List LispValue)
  | func (name : Option String) (params : List LispValue) (body : LispValue)
      (envRef : Nat)
  | bool (value : Bool)
  | nil
deriving Repr

/-- `Environment` of `interpreter.go`: a symbol-to-value mapping, modelled
as an association list looked up at the first matching key. -/
abbrev Environment := List (String × LispValue)

/-- The heap of environments: Go maps are mutable reference values, so the
model threads a store and functions capture indices into it. -/
abbrev EnvStore := List Environment

/-- `LispError` of `interpreter.go`, reduced to the message; the line and
column fields (always 0 at evaluation errors of the source) are dropped. -/
structure LispError where
  message : String
deriving Repr, DecidableEq

/-! ## Decimal rendering of integers (strconv.Itoa of the source) -/

/-- One decimal digit as a character. -/
def digitChar (d : Nat) : Char := Char.ofNat (48 + d)

/-- Accumulator-style decimal digits of a natural number; the fuel makes the
recursion structural, `natToDigits` supplies enough. -/
def natDigitsAux : Nat → Nat → List Char → List Char
  | 0, _, acc => acc
  | fuel + 1, n, acc =>
    if n < 10 then digitChar n :: acc
    else natDigitsAux fuel (n / 10) (digitChar (n % 10) :: acc)

/-- Decimal digit string of a natural number (`Itoa` on naturals). -/
def natToDigits (n : Nat) : List Char := natDigitsAux (n + 1) n []

/-- Model of `strconv.Itoa`: decimal rendering with a leading minus sign. -/
def intToString (n : Int) : String :=
  if n < 0 then ⟨'-' :: natToDigits n.natAbs⟩ else ⟨natToDigits n.toNat⟩

/-! ## Exact rational model of float64 arithmetic

The four Go float64 operations, `math.Pow` and `math.Sqrt` are modelled on
`ℚ`.  The definitions below use `Rat.divInt` rather than the `Field ℚ`
operations so that they evaluate by kernel reduction; lemmas prove them
equal to the standard operations. -/

/-- Exact model of float64 addition (`+=` of the source). -/
def qAdd (a b : ℚ) : ℚ := Rat.divInt (a.num * b.den + b.num * a.den) (a.den * b.den)

/-- Exact model of float64 subtraction (`-=` of the source). -/
def qSub (a b : ℚ) : ℚ := Rat.divInt (a.num * b.den - b.num * a.den) (a.den * b.den)

/-- Exact model of float64 multiplication (`*=` of the source). -/
def qMul (a b : ℚ) : ℚ := Rat.divInt (a.num * b.num) (a.den * b.den)

/-- Exact model of float64 division (`/=` of the source); divisors are
checked nonzero by the callers, mirroring the source's zero checks. -/
def qDiv (a b : ℚ) : ℚ := Rat.divInt (a.num * b.den) (a.den * b.num)

/-- Kernel-evaluable natural power on the rational model. -/
def qPowNat (b : ℚ) : Nat → ℚ
  | 0 => 1
  | n + 1 => qMul (qPowNat b n) b

/-- Model of `math.Pow` on the exact rational model of float64: defined
exactly for whole exponents (positive, zero and negative); a non-whole
exponent generally has an irrational exact power, which the rational model
cannot represent — that case is outside the model and mapped to `0`. -/
def mathPow (b e : ℚ) : ℚ :=
  if e.den = 1 then
    if 0 ≤ e.num then qPowNat b e.num.toNat
    else qDiv 1 (qPowNat b (-e.num).toNat)
  else 0

/-- Largest `k ≤ bound` with `k * k ≤ n` (helper for the sqrt model). -/
def sqrtDown : Nat → Nat → Nat
  | 0, _ => 0
  | k + 1, n => if (k + 1) * (k + 1) ≤ n then k + 1 else sqrtDown k n

/-- Kernel-evaluable floor square root of a natural number. -/
def natSqrtM (n : Nat) : Nat := sqrtDown n n

/-- Model of `math.Sqrt` on the exact rational model of float64: the exact
square root when the argument is the square of a rational; an argument
with an irrational square root is outside the model (the result is then
the floor square root of numerator over the one of the denominator). -/
def mathSqrt (q : ℚ) : ℚ := Rat.divInt (natSqrtM q.num.toNat) (natSqrtM q.den)

/-- The exact-value collapsing rule applied after every arithmetic builtin
of the source: `if float64(int(x)) == x { return &LispNumber{int(x)} }
return &LispFloat{x}`, i.e. a whole-valued result becomes an Integer. -/
def collapseExact (x : ℚ) : LispValue :=
  if x.den = 1 then .num x.num else .float x

/-! ## Numeric lexeme classification (strconv.ParseFloat / strconv.Atoi) -/

/-- ASCII decimal digit test. -/
def isDigitChar (c : Char) : Bool := 48 ≤ c.toNat && c.toNat ≤ 57

/-- ASCII hexadecimal digit test. -/
def isHexDigitChar (c : Char) : Bool :=
  isDigitChar c || (97 ≤ c.toNat && c.toNat ≤ 102) || (65 ≤ c.toNat && c.toNat ≤ 70)

/-- Drop one optional leading sign character. -/
def dropSign : List Char → List Char
  | [] => []
  | c :: rest => if c = '+' then rest else if c = '-' then rest else c :: rest

/-- The tail of a decimal exponent: optional sign then one or more digits. -/
def expTailOk (cs : List Char) : Bool :=
  let ds := dropSign cs
  !ds.isEmpty && ds.all isDigitChar

/-- Either the end of the lexeme or an `e`/`E` exponent part. -/
def expOptOk : List Char → Bool
  | [] => true
  | 'e' :: rest => expTailOk rest
  | 'E' :: rest => expTailOk rest
  | _ => false

/-- Decimal float syntax after the sign: digits with an optional point,
at least one digit in total, then an optional exponent. -/
def decMantissaOk (cs : List Char) : Bool :=
  let ds := cs.takeWhile isDigitChar
  let rest := cs.dropWhile isDigitChar
  match rest with
  | '.' :: rest2 =>
    let ds2 := rest2.takeWhile isDigitChar
    let rest3 := rest2.dropWhile isDigitChar
    (!ds.isEmpty || !ds2.isEmpty) && expOptOk rest3
  | _ => !ds.isEmpty && expOptOk rest

/-- Hexadecimal float syntax after the sign: `0x`, hex digits with an
optional point (at least one digit), then a mandatory `p` exponent. -/
def hexMantissaOk (cs : List Char) : Bool :=
  match cs with
  | '0' :: x :: rest =>
    (x = 'x' || x = 'X') &&
      (let ds := rest.takeWhile isHexDigitChar
       let rest2 := rest.dropWhile isHexDigitChar
       match rest2 with
       | '.' :: rest3 =>
         let ds2 := rest3.takeWhile isHexDigitChar
         let rest4 := rest3.dropWhile isHexDigitChar
         (!ds.isEmpty || !ds2.isEmpty) &&
           (match rest4 with
            | 'p' :: r => expTailOk r
            | 'P' :: r => expTailOk r
            | _ => false)
       | 'p' :: r => !ds.isEmpty && expTailOk r
       | 'P' :: r => !ds.isEmpty && expTailOk r
       | _ => false)
  | _ => false

/-- Case-insensitive match of a lexeme against a lowercase word. -/
def matchWordCI : List Char → List Char → Bool
  | [], [] => true
  | c :: cs, w :: ws => (c.toLower = w) && matchWordCI cs ws
  | _, _ => false

/-- Model of `strconv.ParseFloat(value, 64) == nil`: the Go float syntax —
optional sign, then a decimal or hexadecimal mantissa with optional
exponent, or one of the special words inf/infinity/nan (case-insensitive).
Digit-separating underscores of the Go syntax are not modelled. -/
def parseFloatOk (s : String) : Bool :=
  let cs := dropSign s.data
  decMantissaOk cs || hexMantissaOk cs ||
    matchWordCI cs "inf".data || matchWordCI cs "infinity".data ||
    matchWordCI cs "nan".data

/-- Numeric value of a list of decimal digit characters. -/
def digitsToNat (cs : List Char) : Nat :=
  cs.foldl (fun a c => a * 10 + (c.toNat - 48)) 0

/-- Model of `strconv.Atoi`: optional sign then one or more decimal
digits and nothing else (base-10 `ParseInt`; int64 overflow is not
modelled). -/
def atoiModel (s : String) : Option Int :=
  match s.data with
  | [] => none
  | c :: rest =>
    if c = '+' then
      if !rest.isEmpty && rest.all isDigitChar then some (digitsToNat rest) else none
    else if c = '-' then
      if !rest.isEmpty && rest.all isDigitChar then some (-(digitsToNat rest : Int))
      else none
    else if (c :: rest).all isDigitChar then some (digitsToNat (c :: rest)) else none

/-- `num, _ := strconv.Atoi(token.Value)` of the parser: a failed parse
leaves the zero value. -/
def atoiGo (s : String) : Int := (atoiModel s).getD 0

/-- Value of a decimal float lexeme, exactly (model of the value returned
by `strconv.ParseFloat` on the FLOAT tokens the lexer classifies; the
float64 rounding of that value, and exponent parts, are outside the
model). -/
def parseFloatGo (s : String) : ℚ :=
  let signed := s.data.headD ' ' = '-'
  let cs := dropSign s.data
  let ipart := cs.takeWhile isDigitChar
  let rest := cs.dropWhile isDigitChar
  let fpart := match rest with
    | '.' :: rest2 => rest2.takeWhile isDigitChar
    | _ => []
  let m : Int := digitsToNat (ipart ++ fpart)
  Rat.divInt (if signed then -m else m) ((10 : Nat) ^ fpart.length)

/-! ## Rendering (the String() methods of ast.go) -/

/-- Model of `strconv.FormatFloat(f.Value, 'f', -1, 64)`: exact for whole
values (which render as their integer digits); the shortest-decimal
rendering of a non-integral float64 is outside the model, where the exact
fraction is rendered instead. -/
def formatFloatGo (q : ℚ) : String :=
  if q.den = 1 then intToString q.num
  else intToString q.num ++ "/" ++ ⟨natToDigits q.den⟩

mutual

/-- The `String()` methods of ast.go, producing the character sequence of
the textual rendering. -/
def render : LispValue → List Char
  | .atom value => value.data
  | .num value => (intToString value).data
  | .float value => (formatFloatGo value).data
  | .str value => DOUBLE_QUOTE :: value.data ++ [DOUBLE_QUOTE]
  | .list elements => OPEN_BRACKET :: renderJoin elements ++ [CLOSE_BRACKET]
  | .func name _ _ _ =>
    match name with
    | some n => n.toUpper.data
    | none => "FUNCTION".data
  | .bool value => if value then TRUE.data else FALSE.data
  | .nil => NIL.data

/-- List elements joined by `EMPTY_STRING` (a single space), as the
`LispList.String` loop writes them. -/
def renderJoin : List LispValue → List Char
  | [] => []
  | [x] => render x
  | x :: y :: xs => render x ++ EMPTY_STRING.data ++ renderJoin (y :: xs)

end

/-- A value as Go's `fmt` renders it through the Stringer interface. -/
def strOfVal (v : LispValue) : String := ⟨render v⟩

/-! ## Lexer (Tokenize of lexer.go) -/

/-- A lexer token.  The `Line` and `Column` fields of the source are
dropped from the model: the parser reads them only to position error
messages, and positions are not part of the error model here. -/
structure Token where
  type : String
  value : String
deriving Repr, DecidableEq

/-- `string(OPEN_BRACKET)`: the type (and value) of an open-paren token. -/
def openParenS : String := ⟨[OPEN_BRACKET]⟩

/-- `string(CLOSE_BRACKET)`: the type (and value) of a close-paren token. -/
def closeParenS : String := ⟨[CLOSE_BRACKET]⟩

/-- `createToken` of lexer.go: classify a flushed lexeme. -/
def createToken (value : String) : Token :=
  if value = TRUE || value = FALSE then ⟨BOOLEAN, value⟩
  else if value = NIL then ⟨NIL, value⟩
  else if parseFloatOk value then
    if value.data.contains '.' then ⟨FLOAT, value⟩ else ⟨NUMBER, value⟩
  else ⟨IDENTIFIER, value⟩

/-- Model of `unicode.IsSpace` on the Latin-1 range (space, tab, newline,
vertical tab, form feed, carriage return, NEL, no-break space);
white-space characters beyond Latin-1 are not modelled. -/
def isSpaceGo (c : Char) : Bool :=
  c.toNat = 32 || c.toNat = 9 || c.toNat = 10 || c.toNat = 11 ||
    c.toNat = 12 || c.toNat = 13 || c.toNat = 133 || c.toNat = 160

/-- The mutable scanning state of `Tokenize`: emitted tokens, the pending
`strings.Builder`, and the `inString` / `escapeNext` flags. -/
structure TokState where
  tokens : List Token
  pending : List Char
  inString : Bool
  escapeNext : Bool

/-- The `if token.Len() > 0 { tokens = append(tokens, createToken(...)) }`
pattern of the source. -/
def flushPending (st : TokState) : TokState :=
  if st.pending.isEmpty then st
  else { st with tokens := st.tokens ++ [createToken ⟨st.pending⟩], pending := [] }

/-- One character step of the `Tokenize` scanning loop. -/
def tokStep (st : TokState) (c : Char) : TokState :=
  if isSpaceGo c then
    if !st.inString && !st.pending.isEmpty then flushPending st
    else if st.inString then { st with pending := st.pending ++ [c] }
    else st
  else if c = OPEN_BRACKET || c = CLOSE_BRACKET then
    if st.inString then { st with pending := st.pending ++ [c] }
    else
      let st2 := flushPending st
      { st2 with tokens := st2.tokens ++ [{ type := ⟨[c]⟩, value := ⟨[c]⟩ }] }
  else if c = DOUBLE_QUOTE then
    if st.inString && !st.escapeNext then
      { st with tokens := st.tokens ++ [{ type := STRING, value := ⟨st.pending⟩ }],
                pending := [], inString := false, escapeNext := false }
    else { st with inString := true, escapeNext := false }
  else if c = DOUBLE_ANTI_SLASH then
    if st.inString && !st.escapeNext then { st with escapeNext := true }
    else { st with pending := st.pending ++ [c] }
  else { st with pending := st.pending ++ [c] }

/-- `Tokenize` of lexer.go: scan the input and flush the trailing lexeme. -/
def Tokenize (input : String) : List Token :=
  (flushPending (input.data.foldl tokStep ⟨[], [], false, false⟩)).tokens

/-! ## Parser (Parse of parser.go, the Token-based version) -/

/-- The parse error raised when tokens are exhausted. -/
def unexpectedEOF : LispError := ⟨"unexpected EOF while reading"⟩

/-- The model artefact returned when evaluation or parsing fuel runs out
(the source draws this depth from the host stack instead). -/
def outOfFuel : LispError := ⟨"model: out of fuel"⟩

mutual

/-- `Parse` of parser.go (recursive-descent on tokens); the fuel bounds
the recursion depth the source takes from the host stack. -/
def parseExpr : Nat → List Token → Except LispError (LispValue × List Token)
  | 0, _ => .error outOfFuel
  | _ + 1, [] => .error unexpectedEOF
  | fuel + 1, token :: tokens =>
    if token.type = openParenS then parseElems fuel tokens []
    else if token.type = STRING then .ok (.str token.value, tokens)
    else if token.type = NUMBER then .ok (.num (atoiGo token.value), tokens)
    else if token.type = FLOAT then .ok (.float (parseFloatGo token.value), tokens)
    else if token.type = BOOLEAN then .ok (.bool (token.value = TRUE), tokens)
    else if token.type = NIL then .ok (.nil, tokens)
    else .ok (.atom token.value, tokens)

/-- The element loop of the open-paren case of `Parse`: parse children
until a close-paren at this depth, which is consumed. -/
def parseElems : Nat → List Token → List LispValue →
    Except LispError (LispValue × List Token)
  | 0, _, _ => .error outOfFuel
  | _ + 1, [], _ => .error unexpectedEOF
  | fuel + 1, t :: tokens, elements =>
    if t.type = closeParenS then .ok (.list elements, tokens)
    else
      match parseExpr fuel (t :: tokens) with
      | .error e => .error e
      | .ok (elem, tokens2) => parseElems fuel tokens2 (elements ++ [elem])

end

/-- `Parse` at a fuel that the input size always makes sufficient (each
unit of fuel is spent consuming a token or stepping into a child whose
first token is consumed immediately). -/
def Parse (tokens : List Token) : Except LispError (LispValue × List Token) :=
  parseExpr (2 * tokens.length + 2) tokens

/-! ## Environment and store operations -/

/-- Map lookup `env[name]` (first matching key of the association list). -/
def envLookup : Environment → String → Option LispValue
  | [], _ => none
  | (k, v) :: rest, key => if k = key then some v else envLookup rest key

/-- Map assignment `env[name] = value` (overwrite semantics). -/
def envSet : Environment → String → LispValue → Environment
  | [], key, val => [(key, val)]
  | (k, v) :: rest, key, val =>
    if k = key then (key, val) :: rest else (k, v) :: envSet rest key val

/-- Dereference an environment index of the store. -/
def storeGet (st : EnvStore) (r : Nat) : Environment := st.getD r []

/-- Replace the environment at an index of the store (a Go map mutation
seen through its reference). -/
def storeSet (st : EnvStore) (r : Nat) (env : Environment) : EnvStore :=
  st.set r env

/-! ## Builtin library (interpreter.go)

Each builtin of the source mutually recurses with `Eval`; the model makes
that explicit by an `ev` argument, which `Eval` instantiates with itself
at decremented fuel.  The extra `EnvStore` threading models the mutable
Go maps; the `env : Nat` argument is the reference to the environment the
source receives. -/

/-- The evaluator as the builtins see it. -/
abbrev EvalFn := EnvStore → Nat → LispValue → Except LispError (LispValue × EnvStore)

/-- Evaluate a list of argument expressions left to right
(the argument loop of `builtinFormat`). -/
def evalEach (ev : EvalFn) : EnvStore → Nat → List LispValue →
    Except LispError (List LispValue × EnvStore)
  | st, _, [] => .ok ([], st)
  | st, env, a :: rest =>
    match ev st env a with
    | .error e => .error e
    | .ok (v, st2) =>
      match evalEach ev st2 env rest with
      | .error e => .error e
      | .ok (vs, st3) => .ok (v :: vs, st3)

/-- Modelled from the spec: `fmt.Sprintf` is the excluded formatting
collaborator (positional substitution into the template); the model keeps
the template text unchanged. -/
def sprintfGo (format : String) (_args : List LispValue) : String := format

/-- `builtinFormat`: at least two raw arguments, the second one must be a
string literal (the first, conventionally `t`, is ignored unevaluated),
the remaining ones are evaluated and substituted. -/
def builtinFormat (ev : EvalFn) (st : EnvStore) (env : Nat) (args : List LispValue) :
    Except LispError (LispValue × EnvStore) :=
  if args.length < 2 then .error ⟨"wrong number of arguments to format"⟩
  else
    match args.get? 1 with
    | some (.str formatStr) =>
      match evalEach ev st env (args.drop 2) with
      | .error e => .error e
      | .ok (vals, st2) => .ok (.str (sprintfGo formatStr vals), st2)
    | some other => .error ⟨"invalid format string: " ++ strOfVal other⟩
    | none => .error ⟨"invalid format string: "⟩

/-- `builtinRead` blocks on a line from stdin — the excluded I/O
collaborator; the pure model cannot supply one and reports it as an
error (a model artefact, no claim exercises `read`). -/
def builtinRead (_st : EnvStore) (_env : Nat) (_args : List LispValue) :
    Except LispError (LispValue × EnvStore) :=
  .error ⟨"model: read requires the excluded stdin collaborator"⟩

/-- `builtinPrint`: evaluates and returns its first argument from inside
the loop's first iteration; without arguments it returns an empty
string. -/
def builtinPrint (ev : EvalFn) (st : EnvStore) (env : Nat) (args : List LispValue) :
    Except LispError (LispValue × EnvStore) :=
  match args with
  | [] => .ok (.str "", st)
  | a :: _ => ev st env a

/-- The accumulation loop of `builtinAdd` (`sum += ...` over float64). -/
def addLoop (ev : EvalFn) : EnvStore → Nat → List LispValue → ℚ →
    Except LispError (ℚ × EnvStore)
  | st, _, [], sum => .ok (sum, st)
  | st, env, a :: rest, sum =>
    match ev st env a with
    | .error e => .error e
    | .ok (.num n, st2) => addLoop ev st2 env rest (qAdd sum (n : ℚ))
    | .ok (.float f, st2) => addLoop ev st2 env rest (qAdd sum f)
    | .ok (v, _) => .error ⟨"invalid argument to +: " ++ strOfVal v⟩

/-- `builtinAdd`: sum the evaluated arguments in float64, then apply the
exact-value collapsing rule. -/
def builtinAdd (ev : EvalFn) (st : EnvStore) (env : Nat) (args : List LispValue) :
    Except LispError (LispValue × EnvStore) :=
  match addLoop ev st env args 0 with
  | .error e => .error e
  | .ok (sum, st2) => .ok (collapseExact sum, st2)

/-- The subtraction loop of `builtinSub` (`diff -= ...`); the error text
`+` is the source's own (a copy of the add message). -/
def subLoop (ev : EvalFn) : EnvStore → Nat → List LispValue → ℚ →
    Except LispError (ℚ × EnvStore)
  | st, _, [], diff => .ok (diff, st)
  | st, env, a :: rest, diff =>
    match ev st env a with
    | .error e => .error e
    | .ok (.num n, st2) => subLoop ev st2 env rest (qSub diff (n : ℚ))
    | .ok (.float f, st2) => subLoop ev st2 env rest (qSub diff f)
    | .ok (v, _) => .error ⟨"invalid argument to +: " ++ strOfVal v⟩

/-- `builtinSub`: the first evaluated argument seeds the difference, the
remaining ones are subtracted, then the collapsing rule applies. -/
def builtinSub (ev : EvalFn) (st : EnvStore) (env : Nat) (args : List LispValue) :
    Except LispError (LispValue × EnvStore) :=
  match args with
  | [] => .error ⟨"wrong number of arguments to -"⟩
  | a :: rest =>
    match ev st env a with
    | .error e => .error e
    | .ok (.num n, st2) =>
      match subLoop ev st2 env rest (n : ℚ) with
      | .error e => .error e
      | .ok (diff, st3) => .ok (collapseExact diff, st3)
    | .ok (.float f, st2) =>
      match subLoop ev st2 env rest f with
      | .error e => .error e
      | .ok (diff, st3) => .ok (collapseExact diff, st3)
    | .ok (v, _) => .error ⟨"invalid argument to +: " ++ strOfVal v⟩

/-- The accumulation loop of `builtinMul` (`prod *= ...`). -/
def mulLoop (ev : EvalFn) : EnvStore → Nat → List LispValue → ℚ →
    Except LispError (ℚ × EnvStore)
  | st, _, [], prod => .ok (prod, st)
  | st, env, a :: rest, prod =>
    match ev st env a with
    | .error e => .error e
    | .ok (.num n, st2) => mulLoop ev st2 env rest (qMul prod (n : ℚ))
    | .ok (.float f, st2) => mulLoop ev st2 env rest (qMul prod f)
    | .ok (v, _) => .error ⟨"invalid argument to +: " ++ strOfVal v⟩

/-- `builtinMul`: product over the evaluated arguments starting from 1,
then the collapsing rule. -/
def builtinMul (ev : EvalFn) (st : EnvStore) (env : Nat) (args : List LispValue) :
    Except LispError (LispValue × EnvStore) :=
  match mulLoop ev st env args 1 with
  | .error e => .error e
  | .ok (prod, st2) => .ok (collapseExact prod, st2)

/-- The division loop of `builtinDiv` (`quot /= ...`): every divisor is
checked against zero before dividing. -/
def divLoop (ev : EvalFn) : EnvStore → Nat → List LispValue → ℚ →
    Except LispError (ℚ × EnvStore)
  | st, _, [], quot => .ok (quot, st)
  | st, env, a :: rest, quot =>
    match ev st env a with
    | .error e => .error e
    | .ok (.num n, st2) =>
      if n = 0 then .error ⟨"division by zero"⟩
      else divLoop ev st2 env rest (qDiv quot (n : ℚ))
    | .ok (.float f, st2) =>
      if f = 0 then .error ⟨"division by zero"⟩
      else divLoop ev st2 env rest (qDiv quot f)
    | .ok (v, _) => .error ⟨"invalid argument to +: " ++ strOfVal v⟩

/-- `builtinDiv`: the first evaluated argument seeds the quotient, each
later one must be a nonzero number, then the collapsing rule applies. -/
def builtinDiv (ev : EvalFn) (st : EnvStore) (env : Nat) (args : List LispValue) :
    Except LispError (LispValue × EnvStore) :=
  match args with
  | [] => .error ⟨"wrong number of arguments to /"⟩
  | a :: rest =>
    match ev st env a with
    | .error e => .error e
    | .ok (.num n, st2) =>
      match divLoop ev st2 env rest (n : ℚ) with
      | .error e => .error e
      | .ok (quot, st3) => .ok (collapseExact quot, st3)
    | .ok (.float f, st2) =>
      match divLoop ev st2 env rest f with
      | .error e => .error e
      | .ok (quot, st3) => .ok (collapseExact quot, st3)
    | .ok (v, _) => .error ⟨"invalid argument to +: " ++ strOfVal v⟩

/-- `builtinMod`: exactly two Integer operands, nonzero divisor;
Go's `%` truncates towards zero (`Int.tmod`). -/
def builtinMod (ev : EvalFn) (st : EnvStore) (env : Nat) (args : List LispValue) :
    Except LispError (LispValue × EnvStore) :=
  match args with
  | [a, b] =>
    match ev st env a with
    | .error e => .error e
    | .ok (v1, st2) =>
      match ev st2 env b with
      | .error e => .error e
      | .ok (v2, st3) =>
        match v1, v2 with
        | .num n1, .num n2 =>
          if n2 = 0 then .error ⟨"division by zero"⟩
          else .ok (.num (Int.tmod n1 n2), st3)
        | _, _ => .error ⟨"invalid arguments to %"⟩
  | _ => .error ⟨"wrong number of arguments to %"⟩

/-- `builtinPow`: two numeric operands, `math.Pow`, then the collapsing
rule. -/
def builtinPow (ev : EvalFn) (st : EnvStore) (env : Nat) (args : List LispValue) :
    Except LispError (LispValue × EnvStore) :=
  match args with
  | [a, b] =>
    match ev st env a with
    | .error e => .error e
    | .ok (base, st2) =>
      match ev st2 env b with
      | .error e => .error e
      | .ok (exp, st3) =>
        match base with
        | .num bn => powFinish (bn : ℚ) exp st3
        | .float bf => powFinish bf exp st3
        | _ => .error ⟨"invalid base argument to pow"⟩
  | _ => .error ⟨"wrong number of arguments to pow"⟩
where
  /-- The exponent dispatch and collapse of `builtinPow`. -/
  powFinish (baseVal : ℚ) (exp : LispValue) (st3 : EnvStore) :
      Except LispError (LispValue × EnvStore) :=
    match exp with
    | .num en => .ok (collapseExact (mathPow baseVal (en : ℚ)), st3)
    | .float ef => .ok (collapseExact (mathPow baseVal ef), st3)
    | _ => .error ⟨"invalid exponent argument to pow"⟩

/-- `builtinSqrt`: one numeric operand, non-negative (the float comparison
`num < 0` of the source is the sign of the exact value, `q.num < 0`),
`math.Sqrt`, then the collapsing rule. -/
def builtinSqrt (ev : EvalFn) (st : EnvStore) (env : Nat) (args : List LispValue) :
    Except LispError (LispValue × EnvStore) :=
  match args with
  | [a] =>
    match ev st env a with
    | .error e => .error e
    | .ok (v, st2) =>
      match v with
      | .num n => sqrtFinish (n : ℚ) st2
      | .float f => sqrtFinish f st2
      | _ => .error ⟨"invalid argument to sqrt"⟩
  | _ => .error ⟨"wrong number of arguments to sqrt"⟩
where
  /-- The negativity check and collapse of `builtinSqrt`. -/
  sqrtFinish (num : ℚ) (st2 : EnvStore) : Except LispError (LispValue × EnvStore) :=
    if num.num < 0 then .error ⟨"cannot take square root of negative number"⟩
    else .ok (collapseExact (mathSqrt num), st2)

/-- The accumulation loop of `builtinConcat`. -/
def concatLoop (ev : EvalFn) : EnvStore → Nat → List LispValue → String →
    Except LispError (String × EnvStore)
  | st, _, [], acc => .ok (acc, st)
  | st, env, a :: rest, acc =>
    match ev st env a with
    | .error e => .error e
    | .ok (.str s, st2) => concatLoop ev st2 env rest (acc ++ s)
    | .ok (_, _) => .error ⟨"invalid argument to concat"⟩

/-- `builtinConcat`: every evaluated argument must be a string; the pieces
are joined. -/
def builtinConcat (ev : EvalFn) (st : EnvStore) (env : Nat) (args : List LispValue) :
    Except LispError (LispValue × EnvStore) :=
  match concatLoop ev st env args "" with
  | .error e => .error e
  | .ok (s, st2) => .ok (.str s, st2)

/-- `builtinSubstring`: a string and two Integer indices inside range.
Go slices by byte index; the model slices by character index, which
agrees on ASCII content. -/
def builtinSubstring (ev : EvalFn) (st : EnvStore) (env : Nat) (args : List LispValue) :
    Except LispError (LispValue × EnvStore) :=
  match args with
  | [a, b, c] =>
    match ev st env a with
    | .error e => .error e
    | .ok (strv, st2) =>
      match ev st2 env b with
      | .error e => .error e
      | .ok (startv, st3) =>
        match ev st3 env c with
        | .error e => .error e
        | .ok (endv, st4) =>
          match strv with
          | .str s =>
            match startv with
            | .num st_ =>
              match endv with
              | .num en =>
                if st_ < 0 || en > (s.data.length : Int) || st_ > en then
                  .error ⟨"invalid substring range"⟩
                else .ok (.str ⟨(s.data.take en.toNat).drop st_.toNat⟩, st4)
              | _ => .error ⟨"third argument to substring must be a number"⟩
            | _ => .error ⟨"second argument to substring must be a number"⟩
          | _ => .error ⟨"first argument to substring must be a string"⟩
  | _ => .error ⟨"wrong number of arguments to substring"⟩

/-- `builtinIsNumber`: whether the evaluated argument is an Integer or a
Float. -/
def builtinIsNumber (ev : EvalFn) (st : EnvStore) (env : Nat) (args : List LispValue) :
    Except LispError (LispValue × EnvStore) :=
  match args with
  | [a] =>
    match ev st env a with
    | .error e => .error e
    | .ok (.num _, st2) => .ok (.bool true, st2)
    | .ok (.float _, st2) => .ok (.bool true, st2)
    | .ok (_, st2) => .ok (.bool false, st2)
  | _ => .error ⟨"wrong number of arguments to is-number"⟩

/-- `builtinIsString`: whether the evaluated argument is a String. -/
def builtinIsString (ev : EvalFn) (st : EnvStore) (env : Nat) (args : List LispValue) :
    Except LispError (LispValue × EnvStore) :=
  match args with
  | [a] =>
    match ev st env a with
    | .error e => .error e
    | .ok (.str _, st2) => .ok (.bool true, st2)
    | .ok (_, st2) => .ok (.bool false, st2)
  | _ => .error ⟨"wrong number of arguments to is-string"⟩

/-- `builtinLt`: exactly two evaluated Integer operands; the result is the
Atom `true` or the Atom `false` (not a Boolean). -/
def builtinLt (ev : EvalFn) (st : EnvStore) (env : Nat) (args : List LispValue) :
    Except LispError (LispValue × EnvStore) :=
  match args with
  | [a, b] =>
    match ev st env a with
    | .error e => .error e
    | .ok (v1, st2) =>
      match ev st2 env b with
      | .error e => .error e
      | .ok (v2, st3) =>
        match v1 with
        | .num n1 =>
          match v2 with
          | .num n2 =>
            if n1 < n2 then .ok (.atom TRUE, st3) else .ok (.atom FALSE, st3)
          | _ => .error ⟨"invalid argument to <: " ++ strOfVal v2⟩
        | _ => .error ⟨"invalid argument to <: " ++ strOfVal v1⟩
  | _ => .error ⟨"wrong number of arguments to <"⟩

/-- `builtinLtOrEq`: like `builtinLt` with `<=` (its messages also say
`<`, as in the source). -/
def builtinLtOrEq (ev : EvalFn) (st : EnvStore) (env : Nat) (args : List LispValue) :
    Except LispError (LispValue × EnvStore) :=
  match args with
  | [a, b] =>
    match ev st env a with
    | .error e => .error e
    | .ok (v1, st2) =>
      match ev st2 env b with
      | .error e => .error e
      | .ok (v2, st3) =>
        match v1 with
        | .num n1 =>
          match v2 with
          | .num n2 =>
            if n1 ≤ n2 then .ok (.atom TRUE, st3) else .ok (.atom FALSE, st3)
          | _ => .error ⟨"invalid argument to <: " ++ strOfVal v2⟩
        | _ => .error ⟨"invalid argument to <: " ++ strOfVal v1⟩
  | _ => .error ⟨"wrong number of arguments to <"⟩

/-- `builtinGt`: like `builtinLt` with `>`. -/
def builtinGt (ev : EvalFn) (st : EnvStore) (env : Nat) (args : List LispValue) :
    Except LispError (LispValue × EnvStore) :=
  match args with
  | [a, b] =>
    match ev st env a with
    | .error e => .error e
    | .ok (v1, st2) =>
      match ev st2 env b with
      | .error e => .error e
      | .ok (v2, st3) =>
        match v1 with
        | .num n1 =>
          match v2 with
          | .num n2 =>
            if n1 > n2 then .ok (.atom TRUE, st3) else .ok (.atom FALSE, st3)
          | _ => .error ⟨"invalid argument to >: " ++ strOfVal v2⟩
        | _ => .error ⟨"invalid argument to >: " ++ strOfVal v1⟩
  | _ => .error ⟨"wrong number of arguments to >"⟩

/-- `builtinGtOrEq`: like `builtinLt` with `>=` (its messages say `>`). -/
def builtinGtOrEq (ev : EvalFn) (st : EnvStore) (env : Nat) (args : List LispValue) :
    Except LispError (LispValue × EnvStore) :=
  match args with
  | [a, b] =>
    match ev st env a with
    | .error e => .error e
    | .ok (v1, st2) =>
      match ev st2 env b with
      | .error e => .error e
      | .ok (v2, st3) =>
        match v1 with
        | .num n1 =>
          match v2 with
          | .num n2 =>
            if n1 ≥ n2 then .ok (.atom TRUE, st3) else .ok (.atom FALSE, st3)
          | _ => .error ⟨"invalid argument to >: " ++ strOfVal v2⟩
        | _ => .error ⟨"invalid argument to >: " ++ strOfVal v1⟩
  | _ => .error ⟨"wrong number of arguments to >"⟩

/-- `builtinEq`: Integer pairs compare numerically; any other pair falls
back to equality of the textual renderings. -/
def builtinEq (ev : EvalFn) (st : EnvStore) (env : Nat) (args : List LispValue) :
    Except LispError (LispValue × EnvStore) :=
  match args with
  | [a, b] =>
    match ev st env a with
    | .error e => .error e
    | .ok (v1, st2) =>
      match ev st2 env b with
      | .error e => .error e
      | .ok (v2, st3) =>
        match v1, v2 with
        | .num n1, .num n2 =>
          if n1 = n2 then .ok (.atom TRUE, st3) else .ok (.atom FALSE, st3)
        | _, _ =>
          if strOfVal v1 = strOfVal v2 then .ok (.atom TRUE, st3)
          else .ok (.atom FALSE, st3)
  | _ => .error ⟨"wrong number of arguments to ="⟩

/-- `builtinIf`: exactly three raw arguments; the condition is evaluated
first, and the first branch is taken exactly when the result is the Atom
`true` (any other value, Booleans included, takes the second branch). -/
def builtinIf (ev : EvalFn) (st : EnvStore) (env : Nat) (args : List LispValue) :
    Except LispError (LispValue × EnvStore) :=
  match args with
  | [c, b1, b2] =>
    match ev st env c with
    | .error e => .error e
    | .ok (cond, st2) =>
      match cond with
      | .atom a => if a = TRUE then ev st2 env b1 else ev st2 env b2
      | _ => ev st2 env b2
  | _ => .error ⟨"wrong number of arguments to if"⟩

/-- `builtinDefun`: name atom, parameter list and body; the function value
captures the current environment reference and is bound into that same
environment (hence visible to itself). -/
def builtinDefun (st : EnvStore) (env : Nat) (args : List LispValue) :
    Except LispError (LispValue × EnvStore) :=
  match args with
  | [n, p, body] =>
    match n with
    | .atom name =>
      match p with
      | .list params =>
        let fn : LispValue := .func (some name) params body env
        .ok (fn, storeSet st env (envSet (storeGet st env) name fn))
      | _ => .error ⟨"invalid function parameters: " ++ strOfVal p⟩
    | _ => .error ⟨"invalid function name: " ++ strOfVal n⟩
  | _ => .error ⟨"wrong number of arguments to defun"⟩

/-- `builtinLambda`: parameter list and body; the anonymous function
captures the current environment reference. -/
def builtinLambda (st : EnvStore) (env : Nat) (args : List LispValue) :
    Except LispError (LispValue × EnvStore) :=
  match args with
  | [p, body] =>
    match p with
    | .list params => .ok (.func none params body env, st)
    | _ => .error ⟨"invalid lambda parameters: " ++ strOfVal p⟩
  | _ => .error ⟨"wrong number of arguments to lambda"⟩

/-- The binding loop of `builtinLet`: each binding pair is evaluated in
the local environment built so far (sequential binding), then assigned
into it. -/
def letLoop (ev : EvalFn) : EnvStore → Nat → List LispValue →
    Except LispError EnvStore
  | st, _, [] => .ok st
  | st, r, binding :: rest =>
    match binding with
    | .list [k, e] =>
      match k with
      | .atom key =>
        match ev st r e with
        | .error err => .error err
        | .ok (val, st2) =>
          letLoop ev (storeSet st2 r (envSet (storeGet st2 r) key val)) r rest
      | _ => .error ⟨"invalid let binding key: " ++ strOfVal k⟩
    | _ => .error ⟨"invalid let binding: " ++ strOfVal binding⟩

/-- `builtinLet`: a binding list and a body; the local environment starts
as a copy of the current one, the bindings are added sequentially, and
the body is evaluated in the fully-bound local environment. -/
def builtinLet (ev : EvalFn) (st : EnvStore) (env : Nat) (args : List LispValue) :
    Except LispError (LispValue × EnvStore) :=
  match args with
  | [b, body] =>
    match b with
    | .list bindings =>
      let localEnv := storeGet st env
      let r := st.length
      match letLoop ev (st ++ [localEnv]) r bindings with
      | .error e => .error e
      | .ok st2 => ev st2 r body
    | _ => .error ⟨"invalid let bindings: " ++ strOfVal b⟩
  | _ => .error ⟨"wrong number of arguments to let"⟩

/-- `builtinAnd`: evaluates left to right and returns Boolean false on the
first Boolean-false value (non-Boolean values are skipped), else Boolean
true. -/
def builtinAnd (ev : EvalFn) : EnvStore → Nat → List LispValue →
    Except LispError (LispValue × EnvStore)
  | st, _, [] => .ok (.bool true, st)
  | st, env, a :: rest =>
    match ev st env a with
    | .error e => .error e
    | .ok (.bool false, st2) => .ok (.bool false, st2)
    | .ok (_, st2) => builtinAnd ev st2 env rest

/-- `builtinOr`: evaluates left to right and returns Boolean true on the
first Boolean-true value (non-Boolean values are skipped), else Boolean
false. -/
def builtinOr (ev : EvalFn) : EnvStore → Nat → List LispValue →
    Except LispError (LispValue × EnvStore)
  | st, _, [] => .ok (.bool false, st)
  | st, env, a :: rest =>
    match ev st env a with
    | .error e => .error e
    | .ok (.bool true, st2) => .ok (.bool true, st2)
    | .ok (_, st2) => builtinOr ev st2 env rest

/-- `builtinNot`: negates a Boolean; any non-Boolean value yields Boolean
false. -/
def builtinNot (ev : EvalFn) (st : EnvStore) (env : Nat) (args : List LispValue) :
    Except LispError (LispValue × EnvStore) :=
  match args with
  | [a] =>
    match ev st env a with
    | .error e => .error e
    | .ok (.bool b, st2) => .ok (.bool !b, st2)
    | .ok (_, st2) => .ok (.bool false, st2)
  | _ => .error ⟨"wrong number of arguments to not"⟩

/-- `builtinList`: wraps the raw argument expressions, unevaluated, in a
new runtime List (the source returns `&LispList{Elements: args}`). -/
def builtinList (st : EnvStore) (args : List LispValue) :
    Except LispError (LispValue × EnvStore) :=
  .ok (.list args, st)

/-- `builtinCar`: the evaluated argument must be a non-empty list; its
first element is returned. -/
def builtinCar (ev : EvalFn) (st : EnvStore) (env : Nat) (args : List LispValue) :
    Except LispError (LispValue × EnvStore) :=
  match args with
  | [a] =>
    match ev st env a with
    | .error e => .error e
    | .ok (v, st2) =>
      match v with
      | .list [] => .error ⟨"car of empty list"⟩
      | .list (x :: _) => .ok (x, st2)
      | _ => .error ⟨"invalid argument to car: " ++ strOfVal v⟩
  | _ => .error ⟨"wrong number of arguments to car"⟩

/-- `builtinCdr`: the evaluated argument must be a list; the empty list
yields a fresh empty list, any other list its tail. -/
def builtinCdr (ev : EvalFn) (st : EnvStore) (env : Nat) (args : List LispValue) :
    Except LispError (LispValue × EnvStore) :=
  match args with
  | [a] =>
    match ev st env a with
    | .error e => .error e
    | .ok (v, st2) =>
      match v with
      | .list [] => .ok (.list [], st2)
      | .list (_ :: rest) => .ok (.list rest, st2)
      | _ => .error ⟨"invalid argument to cdr: " ++ strOfVal v⟩
  | _ => .error ⟨"wrong number of arguments to cdr"⟩

/-- `builtinCons`: evaluates an element and a list and prepends the
element. -/
def builtinCons (ev : EvalFn) (st : EnvStore) (env : Nat) (args : List LispValue) :
    Except LispError (LispValue × EnvStore) :=
  match args with
  | [a, b] =>
    match ev st env a with
    | .error e => .error e
    | .ok (elem, st2) =>
      match ev st2 env b with
      | .error e => .error e
      | .ok (v, st3) =>
        match v with
        | .list elements => .ok (.list (elem :: elements), st3)
        | _ => .error ⟨"invalid argument to cons: " ++ strOfVal v⟩
  | _ => .error ⟨"wrong number of arguments to cons"⟩

/-- `builtinLength`: the length of the evaluated list argument. -/
def builtinLength (ev : EvalFn) (st : EnvStore) (env : Nat) (args : List LispValue) :
    Except LispError (LispValue × EnvStore) :=
  match args with
  | [a] =>
    match ev st env a with
    | .error e => .error e
    | .ok (v, st2) =>
      match v with
      | .list elements => .ok (.num elements.length, st2)
      | _ => .error ⟨"invalid argument to length: " ++ strOfVal v⟩
  | _ => .error ⟨"wrong number of arguments to length"⟩

/-- The accumulation loop of `builtinAppend`. -/
def appendLoop (ev : EvalFn) : EnvStore → Nat → List LispValue → List LispValue →
    Except LispError (List LispValue × EnvStore)
  | st, _, [], acc => .ok (acc, st)
  | st, env, a :: rest, acc =>
    match ev st env a with
    | .error e => .error e
    | .ok (v, st2) =>
      match v with
      | .list elements => appendLoop ev st2 env rest (acc ++ elements)
      | _ => .error ⟨"invalid argument to append: " ++ strOfVal v⟩

/-- `builtinAppend`: concatenates the evaluated list arguments. -/
def builtinAppend (ev : EvalFn) (st : EnvStore) (env : Nat) (args : List LispValue) :
    Except LispError (LispValue × EnvStore) :=
  match appendLoop ev st env args [] with
  | .error e => .error e
  | .ok (elements, st2) => .ok (.list elements, st2)

/-- The positional-binding loop of `callFunction`: each parameter must be
an atom, each call-site argument expression is evaluated in the *caller's*
environment, and the result is bound into the local environment under
construction. -/
def bindLoop (ev : EvalFn) : EnvStore → Nat → List (LispValue × LispValue) →
    Environment → Except LispError (Environment × EnvStore)
  | st, _, [], localEnv => .ok (localEnv, st)
  | st, env, (p, a) :: rest, localEnv =>
    match p with
    | .atom pname =>
      match ev st env a with
      | .error e => .error e
      | .ok (val, st2) => bindLoop ev st2 env rest (envSet localEnv pname val)
    | _ => .error ⟨"invalid parameter name: " ++ strOfVal p⟩

/-- `callFunction`: look the name up in the caller's environment, require
a Function, check the arity before touching any argument or the body,
copy the function's captured environment, bind the parameters to the
argument values (evaluated in the caller's environment), and evaluate the
body in that extended environment. -/
def callFunction (ev : EvalFn) (st : EnvStore) (env : Nat) (name : String)
    (args : List LispValue) : Except LispError (LispValue × EnvStore) :=
  match envLookup (storeGet st env) name with
  | none => .error ⟨"undefined function: " ++ name⟩
  | some fn =>
    match fn with
    | .func _ params body fref =>
      if params.length ≠ args.length then
        .error ⟨"wrong number of arguments to " ++ name⟩
      else
        match bindLoop ev st env (params.zip args) (storeGet st fref) with
        | .error e => .error e
        | .ok (localEnv, st2) => ev (st2 ++ [localEnv]) st2.length body
    | _ => .error ⟨"invalid function: " ++ name⟩

/-- `Eval` of interpreter.go: atoms are looked up, literals are
self-evaluating, the empty list is a value, and a non-empty list
dispatches on its head atom to a builtin or a user function.  The fuel
bounds the recursion depth the source takes from the host stack. -/
def Eval : Nat → EnvStore → Nat → LispValue → Except LispError (LispValue × EnvStore)
  | 0, _, _, _ => .error outOfFuel
  | fuel + 1, st, env, expr =>
    match expr with
    | .atom v =>
      match envLookup (storeGet st env) v with
      | some val => .ok (val, st)
      | none => .error ⟨"unbound symbol: " ++ v⟩
    | .num _ => .ok (expr, st)
    | .float _ => .ok (expr, st)
    | .str _ => .ok (expr, st)
    | .bool _ => .ok (expr, st)
    | .nil => .ok (expr, st)
    | .func _ _ _ _ => .error ⟨"unknown expression type: *main.LispFunction"⟩
    | .list [] => .ok (expr, st)
    | .list (head :: args) =>
      match head with
      | .atom fn =>
        if fn = FORMAT then builtinFormat (Eval fuel) st env args
        else if fn = READ then builtinRead st env args
        else if fn = PRINT then builtinPrint (Eval fuel) st env args
        else if fn = PLUS then builtinAdd (Eval fuel) st env args
        else if fn = MINUS then builtinSub (Eval fuel) st env args
        else if fn = STAR then builtinMul (Eval fuel) st env args
        else if fn = SLASH then builtinDiv (Eval fuel) st env args
        else if fn = PERCENT then builtinMod (Eval fuel) st env args
        else if fn = POW then builtinPow (Eval fuel) st env args
        else if fn = SQRT then builtinSqrt (Eval fuel) st env args
        else if fn = CONCAT then builtinConcat (Eval fuel) st env args
        else if fn = SUBSTRING then builtinSubstring (Eval fuel) st env args
        else if fn = IS_NUMBER then builtinIsNumber (Eval fuel) st env args
        else if fn = IS_STRING then builtinIsString (Eval fuel) st env args
        else if fn = LESS_THAN then builtinLt (Eval fuel) st env args
        else if fn = LESS_OR_EQUAL_THAN then builtinLtOrEq (Eval fuel) st env args
        else if fn = GREATER_THAN then builtinGt (Eval fuel) st env args
        else if fn = GREATER_OR_EQUAL_THAN then builtinGtOrEq (Eval fuel) st env args
        else if fn = EQUAL then builtinEq (Eval fuel) st env args
        else if fn = IF then builtinIf (Eval fuel) st env args
        else if fn = DEFUN then builtinDefun st env args
        else if fn = LAMBDA then builtinLambda st env args
        else if fn = LET then builtinLet (Eval fuel) st env args
        else if fn = AND then builtinAnd (Eval fuel) st env args
        else if fn = OR then builtinOr (Eval fuel) st env args
        else if fn = NOT then builtinNot (Eval fuel) st env args
        else if fn = LIST then builtinList st args
        else if fn = CAR then builtinCar (Eval fuel) st env args
        else if fn = CDR then builtinCdr (Eval fuel) st env args
        else if fn = CONS then builtinCons (Eval fuel) st env args
        else if fn = LENGTH then builtinLength (Eval fuel) st env args
        else if fn = APPEND then builtinAppend (Eval fuel) st env args
        else callFunction (Eval fuel) st env fn args
      | _ => .error ⟨"invalid function call: " ++ strOfVal head⟩

/-- `initEnvironment` of main.go: the global environment pre-populated
with `t`, `nil`, `true`, `false` (note: `true` and `false` are bound to
Boolean values, not to the Atoms the comparison builtins produce). -/
def initEnvironment : Environment :=
  envSet (envSet (envSet (envSet [] T (.bool true)) NIL .nil) TRUE (.bool true))
    FALSE (.bool false)

/-- The store at startup: one environment (index 0), the global one. -/
def store0 : EnvStore := [initEnvironment]

/-- The single-expression pipeline of `executor` / the file mode of
main.go: tokenize, parse the first expression, evaluate it in the global
environment, and keep the value. -/
def runSource (fuel : Nat) (input : String) : Except LispError LispValue :=
  match Parse (Tokenize input) with
  | .error e => .error e
  | .ok (expr, _) =>
    match Eval fuel store0 0 expr with
    | .error e => .error e
    | .ok (v, _) => .ok v

/-! ## The model's rational operations agree with the field operations -/

theorem qAdd_eq (a b : ℚ) : qAdd a b = a + b := by
  rw [qAdd, ← Rat.num_divInt_den a, ← Rat.num_divInt_den b, Rat.divInt_add_divInt,
    Rat.num_divInt_den, Rat.num_divInt_den]
  · exact_mod_cast a.den_nz
  · exact_mod_cast b.den_nz

theorem qSub_eq (a b : ℚ) : qSub a b = a - b := by
  rw [qSub, ← Rat.num_divInt_den a, ← Rat.num_divInt_den b, Rat.divInt_sub_divInt,
    Rat.num_divInt_den, Rat.num_divInt_den]
  · exact_mod_cast a.den_nz
  · exact_mod_cast b.den_nz

theorem qMul_eq (a b : ℚ) : qMul a b = a * b := by
  rw [qMul, ← Rat.num_divInt_den a, ← Rat.num_divInt_den b, Rat.divInt_mul_divInt,
    Rat.num_divInt_den, Rat.num_divInt_den]
  · exact_mod_cast a.den_nz
  · exact_mod_cast b.den_nz

theorem qDiv_eq (a b : ℚ) : qDiv a b = a / b := by
  conv_rhs => rw [← Rat.num_divInt_den a, ← Rat.num_divInt_den b]
  rw [Rat.divInt_div_divInt, qDiv]

theorem qPowNat_eq (b : ℚ) (n : Nat) : qPowNat b n = b ^ n := by
  induction n with
  | zero => rfl
  | succ k ih => rw [qPowNat, ih, qMul_eq, pow_succ]

theorem mathPow_whole (b e : ℚ) (h : e.den = 1) : mathPow b e = b ^ e.num := by
  rw [mathPow, if_pos h]
  by_cases he : 0 ≤ e.num
  · rw [if_pos he, qPowNat_eq, ← zpow_natCast, Int.toNat_of_nonneg he]
  · rw [if_neg he, qPowNat_eq, qDiv_eq, ← zpow_natCast,
      Int.toNat_of_nonneg (by omega : (0:ℤ) ≤ -e.num), one_div, ← zpow_neg, neg_neg]

theorem sqrtDown_eq (k n a : Nat) (ha : a * a = n) (hk : a ≤ k) : sqrtDown k n = a := by
  induction k with
  | zero => interval_cases a; rfl
  | succ m ih =>
    rw [sqrtDown]
    by_cases hle : (m + 1) * (m + 1) ≤ n
    · rw [if_pos hle]
      nlinarith [Nat.lt_or_ge a (m + 1), Nat.mul_le_mul (Nat.le_of_lt_succ
        (show a < m + 1 + 1 from Nat.lt_succ_of_le hk)) hk]
    · rw [if_neg hle]
      exact ih (by nlinarith)

theorem natSqrtM_self_mul (a : Nat) : natSqrtM (a * a) = a :=
  sqrtDown_eq _ _ _ rfl (by nlinarith)

theorem mathSqrt_sq (r : ℚ) (h : 0 ≤ r) : mathSqrt (r * r) = r := by
  obtain ⟨m, hm⟩ : ∃ m : Nat, r.num = (m : ℤ) :=
    ⟨r.num.toNat, (Int.toNat_of_nonneg (Rat.num_nonneg.mpr h)).symm⟩
  rw [mathSqrt, Rat.mul_self_num, Rat.mul_self_den, hm, ← Nat.cast_mul,
    Int.toNat_natCast, natSqrtM_self_mul, natSqrtM_self_mul, ← hm,
    Rat.num_divInt_den]

/-- A whole-valued rational collapses to the Integer variant. -/
theorem collapseExact_whole {x : ℚ} (k : ℤ) (h : x = (k : ℚ)) :
    collapseExact x = .num k := by
  subst h
  rw [collapseExact, if_pos (Rat.den_intCast k), Rat.num_intCast]

/-- A non-whole rational stays in the Float variant. -/
theorem collapseExact_not_whole {x : ℚ} (h : ¬∃ k : ℤ, x = (k : ℚ)) :
    collapseExact x = .float x := by
  rw [collapseExact, if_neg]
  intro hden
  exact h ⟨x.num, ((Rat.den_eq_one_iff x).mp hden).symm⟩

/-! ## Evaluation plumbing -/

/-- Whether a value is of one of the two numeric variants. -/
def isNumeric : LispValue → Bool
  | .num _ => true
  | .float _ => true
  | _ => false

/-- The exact rational content of a numeric value (`0` elsewhere). -/
def toQval : LispValue → ℚ
  | .num n => (n : ℚ)
  | .float f => f
  | _ => 0

/-- Numeric literals are self-evaluating. -/
theorem eval_numeric_lit {fuel : Nat} (st : EnvStore) (env : Nat) {v : LispValue}
    (h : 1 ≤ fuel) (hv : isNumeric v = true) : Eval fuel st env v = .ok (v, st) := by
  cases fuel with
  | zero => omega
  | succ f => cases v <;> simp_all [isNumeric, Eval]

theorem envLookup_envSet_self (m : Environment) (k : String) (v : LispValue) :
    envLookup (envSet m k v) k = some v := by
  induction m with
  | nil => simp [envSet, envLookup]
  | cons kv rest ih =>
    by_cases h : kv.1 = k
    · simp [envSet, envLookup, h]
    · simp only [envSet, h, if_false, envLookup]
      exact ih

theorem envLookup_envSet_other (m : Environment) (k k' : String) (v : LispValue)
    (h : k ≠ k') : envLookup (envSet m k v) k' = envLookup m k' := by
  induction m with
  | nil => simp [envSet, envLookup, h]
  | cons kv rest ih =>
    by_cases hk : kv.1 = k
    · simp only [envSet, hk, if_true, envLookup]
      rw [if_neg h, if_neg (hk ▸ h)]
    · simp only [envSet, hk, if_false, envLookup]
      by_cases hk' : kv.1 = k'
      · rw [if_pos hk', if_pos hk']
      · rw [if_neg hk', if_neg hk']
        exact ih

theorem storeGet_append_length (st : EnvStore) (m : Environment) :
    storeGet (st ++ [m]) st.length = m := by
  simp [storeGet, List.getD, List.getElem?_append_right]

theorem storeGet_storeSet_self (st : EnvStore) (r : Nat) (m : Environment)
    (h : r < st.length) : storeGet (storeSet st r m) r = m := by
  simp [storeGet, storeSet, List.getD, List.getElem?_set, h]

/-- The sum loop of `builtinAdd` over numeric literal arguments computes
the exact sum of their values. -/
theorem addLoop_lits {fuel : Nat} (st : EnvStore) (env : Nat) (vs : List LispValue)
    (acc : ℚ) (h : 1 ≤ fuel) (hvs : ∀ v ∈ vs, isNumeric v = true) :
    addLoop (Eval fuel) st env vs acc =
      .ok (vs.foldl (fun a v => a + toQval v) acc, st) := by
  induction vs generalizing acc st with
  | nil => rfl
  | cons v rest ih =>
    have hv := hvs v (by simp)
    have hrest : ∀ w ∈ rest, isNumeric w = true := fun w hw => hvs w (by simp [hw])
    rw [addLoop]
    cases v with
    | num n => rw [eval_numeric_lit st env h hv]; simpa [qAdd_eq, toQval] using ih st _ hrest
    | float f => rw [eval_numeric_lit st env h hv]; simpa [qAdd_eq, toQval] using ih st _ hrest
    | _ => simp [isNumeric] at hv

/-- The subtraction loop of `builtinSub` over numeric literal arguments. -/
theorem subLoop_lits {fuel : Nat} (st : EnvStore) (env : Nat) (vs : List LispValue)
    (acc : ℚ) (h : 1 ≤ fuel) (hvs : ∀ v ∈ vs, isNumeric v = true) :
    subLoop (Eval fuel) st env vs acc =
      .ok (vs.foldl (fun a v => a - toQval v) acc, st) := by
  induction vs generalizing acc st with
  | nil => rfl
  | cons v rest ih =>
    have hv := hvs v (by simp)
    have hrest : ∀ w ∈ rest, isNumeric w = true := fun w hw => hvs w (by simp [hw])
    rw [subLoop]
    cases v with
    | num n => rw [eval_numeric_lit st env h hv]; simpa [qSub_eq, toQval] using ih st _ hrest
    | float f => rw [eval_numeric_lit st env h hv]; simpa [qSub_eq, toQval] using ih st _ hrest
    | _ => simp [isNumeric] at hv

/-- The product loop of `builtinMul` over numeric literal arguments. -/
theorem mulLoop_lits {fuel : Nat} (st : EnvStore) (env : Nat) (vs : List LispValue)
    (acc : ℚ) (h : 1 ≤ fuel) (hvs : ∀ v ∈ vs, isNumeric v = true) :
    mulLoop (Eval fuel) st env vs acc =
      .ok (vs.foldl (fun a v => a * toQval v) acc, st) := by
  induction vs generalizing acc st with
  | nil => rfl
  | cons v rest ih =>
    have hv := hvs v (by simp)
    have hrest : ∀ w ∈ rest, isNumeric w = true := fun w hw => hvs w (by simp [hw])
    rw [mulLoop]
    cases v with
    | num n => rw [eval_numeric_lit st env h hv]; simpa [qMul_eq, toQval] using ih st _ hrest
    | float f => rw [eval_numeric_lit st env h hv]; simpa [qMul_eq, toQval] using ih st _ hrest
    | _ => simp [isNumeric] at hv

/-- The division loop of `builtinDiv` over nonzero numeric literal
divisors computes the iterated exact quotient. -/
theorem divLoop_lits {fuel : Nat} (st : EnvStore) (env : Nat) (vs : List LispValue)
    (acc : ℚ) (h : 1 ≤ fuel) (hvs : ∀ v ∈ vs, isNumeric v = true)
    (hnz : ∀ v ∈ vs, toQval v ≠ 0) :
    divLoop (Eval fuel) st env vs acc =
      .ok (vs.foldl (fun a v => a / toQval v) acc, st) := by
  induction vs generalizing acc st with
  | nil => rfl
  | cons v rest ih =>
    have hv := hvs v (by simp)
    have hz := hnz v (by simp)
    have hrest : ∀ w ∈ rest, isNumeric w = true := fun w hw => hvs w (by simp [hw])
    have hrnz : ∀ w ∈ rest, toQval w ≠ 0 := fun w hw => hnz w (by simp [hw])
    rw [divLoop]
    cases v with
    | num n =>
      rw [eval_numeric_lit st env h hv]
      have hn : ¬n = 0 := by
        intro hn0
        exact hz (by simp [toQval, hn0])
      simpa [hn, qDiv_eq, toQval] using ih st _ hrest hrnz
    | float f =>
      rw [eval_numeric_lit st env h hv]
      have hf : ¬f = 0 := by simpa [toQval] using hz
      simpa [hf, qDiv_eq, toQval] using ih st _ hrest hrnz
    | _ => simp [isNumeric] at hv

/-- The division loop errors with the division-by-zero message as soon as
a zero divisor is reached (numeric literal divisors). -/
theorem divLoop_zero {fuel : Nat} (st : EnvStore) (env : Nat) (vs : List LispValue)
    (acc : ℚ) (h : 1 ≤ fuel) (hvs : ∀ v ∈ vs, isNumeric v = true)
    (hz : ∃ v ∈ vs, toQval v = 0) :
    divLoop (Eval fuel) st env vs acc = .error ⟨"division by zero"⟩ := by
  induction vs generalizing acc st with
  | nil => simp at hz
  | cons v rest ih =>
    have hv := hvs v (by simp)
    have hrest : ∀ w ∈ rest, isNumeric w = true := fun w hw => hvs w (by simp [hw])
    rw [divLoop]
    cases v with
    | num n =>
      rw [eval_numeric_lit st env h hv]
      by_cases hn : n = 0
      · simp [hn]
      · have : ∃ w ∈ rest, toQval w = 0 := by
          rcases hz with ⟨w, hw, hw0⟩
          rcases List.mem_cons.mp hw with rfl | hmem
          · exact absurd (show (n : ℚ) = 0 by simpa [toQval] using hw0)
              (by exact_mod_cast hn)
          · exact ⟨w, hmem, hw0⟩
        simpa [hn] using ih st _ hrest this
    | float f =>
      rw [eval_numeric_lit st env h hv]
      by_cases hf : f = 0
      · simp [hf]
      · have : ∃ w ∈ rest, toQval w = 0 := by
          rcases hz with ⟨w, hw, hw0⟩
          rcases List.mem_cons.mp hw with rfl | hmem
          · exact absurd hw0 (by simpa [toQval] using hf)
          · exact ⟨w, hmem, hw0⟩
        simpa [hf] using ih st _ hrest this
    | _ => simp [isNumeric] at hv

/-- Dispatch of the `let` head atom (definitional). -/
theorem eval_dispatch_let (f : Nat) (st : EnvStore) (env : Nat) (args : List LispValue) :
    Eval (f + 1) st env (.list (.atom LET :: args)) = builtinLet (Eval f) st env args := rfl

/-- Dispatch of the `+` head atom (definitional). -/
theorem eval_dispatch_add (f : Nat) (st : EnvStore) (env : Nat) (args : List LispValue) :
    Eval (f + 1) st env (.list (.atom PLUS :: args)) = builtinAdd (Eval f) st env args := rfl

/-- Atom evaluation resolves through the environment lookup. -/
theorem eval_atom_found (f : Nat) (st : EnvStore) (env : Nat) (s : String)
    (v : LispValue) (h : envLookup (storeGet st env) s = some v) :
    Eval (f + 1) st env (.atom s) = .ok (v, st) := by
  have hstep : Eval (f + 1) st env (.atom s) =
      (match envLookup (storeGet st env) s with
        | some val => (.ok (val, st) : Except LispError (LispValue × EnvStore))
        | none => .error (LispError.mk ("unbound symbol: " ++ s))) := rfl
  rw [hstep, h]

/-! ## Claim C10 — cdr of the empty list -/

/-- C10: applying `cdr` to an argument that evaluates to the empty list
succeeds with a new empty list; `car` of the empty list is an error;
`cdr` fails exactly on arguments that do not evaluate to a list, and
succeeds on every non-empty list with its tail. -/
theorem claim_c10_cdr_empty :
    (∀ (ev : EvalFn) (st : EnvStore) (env : Nat) (e : LispValue) (st2 : EnvStore),
      ev st env e = .ok (.list [], st2) →
      builtinCdr ev st env [e] = .ok (.list [], st2)) ∧
    (∀ (ev : EvalFn) (st : EnvStore) (env : Nat) (e : LispValue) (st2 : EnvStore),
      ev st env e = .ok (.list [], st2) →
      builtinCar ev st env [e] = .error ⟨"car of empty list"⟩) ∧
    (∀ (ev : EvalFn) (st : EnvStore) (env : Nat) (e v : LispValue) (st2 : EnvStore),
      ev st env e = .ok (v, st2) → (∀ xs, v ≠ .list xs) →
      builtinCdr ev st env [e] = .error ⟨"invalid argument to cdr: " ++ strOfVal v⟩) ∧
    (∀ (ev : EvalFn) (st : EnvStore) (env : Nat) (e x : LispValue)
      (xs : List LispValue) (st2 : EnvStore),
      ev st env e = .ok (.list (x :: xs), st2) →
      builtinCdr ev st env [e] = .ok (.list xs, st2)) := by
  refine ⟨fun ev st env e st2 h => ?_, fun ev st env e st2 h => ?_,
    fun ev st env e v st2 h hv => ?_, fun ev st env e x xs st2 h => ?_⟩
  · simp [builtinCdr, h]
  · simp [builtinCar, h]
  · cases v <;> simp_all [builtinCdr]
  · simp [builtinCdr, h]

/-- Witness for C10 at the concrete input `(cdr (list))` / `(car (list))`. -/
theorem claim_c10_witness :
    builtinCdr (Eval 1) store0 0 [.list [.atom LIST]] = .ok (.list [], store0) ∧
    builtinCar (Eval 1) store0 0 [.list [.atom LIST]] = .error ⟨"car of empty list"⟩ :=
  ⟨claim_c10_cdr_empty.1 (Eval 1) store0 0 (.list [.atom LIST]) store0 rfl,
   claim_c10_cdr_empty.2.1 (Eval 1) store0 0 (.list [.atom LIST]) store0 rfl⟩

/-! ## Claim C4 — comparison builtins -/

/-- C4 (amended): the comparison builtins require both operands to
evaluate to Integer values; on those they return the Atom `true` exactly
when the ordering holds and the Atom `false` otherwise, and an operand
evaluating to a Float value is rejected with an invalid-argument error. -/
theorem claim_c4_comparisons :
    (∀ (ev : EvalFn) (st : EnvStore) (env : Nat) (e1 e2 : LispValue) (a b : ℤ)
      (st1 st2 : EnvStore), ev st env e1 = .ok (.num a, st1) →
      ev st1 env e2 = .ok (.num b, st2) →
      builtinLt ev st env [e1, e2] = .ok (.atom (if a < b then TRUE else FALSE), st2) ∧
      builtinLtOrEq ev st env [e1, e2] = .ok (.atom (if a ≤ b then TRUE else FALSE), st2) ∧
      builtinGt ev st env [e1, e2] = .ok (.atom (if b < a then TRUE else FALSE), st2) ∧
      builtinGtOrEq ev st env [e1, e2] = .ok (.atom (if b ≤ a then TRUE else FALSE), st2)) ∧
    (∀ (ev : EvalFn) (st : EnvStore) (env : Nat) (e1 e2 : LispValue) (q : ℚ)
      (v2 : LispValue) (st1 st2 : EnvStore), ev st env e1 = .ok (.float q, st1) →
      ev st1 env e2 = .ok (v2, st2) →
      builtinLt ev st env [e1, e2] =
        .error ⟨"invalid argument to <: " ++ strOfVal (.float q)⟩) ∧
    (∀ (ev : EvalFn) (st : EnvStore) (env : Nat) (e1 e2 : LispValue) (a : ℤ) (q : ℚ)
      (st1 st2 : EnvStore), ev st env e1 = .ok (.num a, st1) →
      ev st1 env e2 = .ok (.float q, st2) →
      builtinLt ev st env [e1, e2] =
        .error ⟨"invalid argument to <: " ++ strOfVal (.float q)⟩) ∧
    (∀ (ev : EvalFn) (st : EnvStore) (env : Nat) (e1 e2 : LispValue) (q : ℚ)
      (v2 : LispValue) (st1 st2 : EnvStore), ev st env e1 = .ok (.float q, st1) →
      ev st1 env e2 = .ok (v2, st2) →
      builtinLtOrEq ev st env [e1, e2] =
        .error ⟨"invalid argument to <: " ++ strOfVal (.float q)⟩) ∧
    (∀ (ev : EvalFn) (st : EnvStore) (env : Nat) (e1 e2 : LispValue) (a : ℤ) (q : ℚ)
      (st1 st2 : EnvStore), ev st env e1 = .ok (.num a, st1) →
      ev st1 env e2 = .ok (.float q, st2) →
      builtinLtOrEq ev st env [e1, e2] =
        .error ⟨"invalid argument to <: " ++ strOfVal (.float q)⟩) ∧
    (∀ (ev : EvalFn) (st : EnvStore) (env : Nat) (e1 e2 : LispValue) (q : ℚ)
      (v2 : LispValue) (st1 st2 : EnvStore), ev st env e1 = .ok (.float q, st1) →
      ev st1 env e2 = .ok (v2, st2) →
      builtinGt ev st env [e1, e2] =
        .error ⟨"invalid argument to >: " ++ strOfVal (.float q)⟩) ∧
    (∀ (ev : EvalFn) (st : EnvStore) (env : Nat) (e1 e2 : LispValue) (a : ℤ) (q : ℚ)
      (st1 st2 : EnvStore), ev st env e1 = .ok (.num a, st1) →
      ev st1 env e2 = .ok (.float q, st2) →
      builtinGt ev st env [e1, e2] =
        .error ⟨"invalid argument to >: " ++ strOfVal (.float q)⟩) ∧
    (∀ (ev : EvalFn) (st : EnvStore) (env : Nat) (e1 e2 : LispValue) (q : ℚ)
      (v2 : LispValue) (st1 st2 : EnvStore), ev st env e1 = .ok (.float q, st1) →
      ev st1 env e2 = .ok (v2, st2) →
      builtinGtOrEq ev st env [e1, e2] =
        .error ⟨"invalid argument to >: " ++ strOfVal (.float q)⟩) ∧
    (∀ (ev : EvalFn) (st : EnvStore) (env : Nat) (e1 e2 : LispValue) (a : ℤ) (q : ℚ)
      (st1 st2 : EnvStore), ev st env e1 = .ok (.num a, st1) →
      ev st1 env e2 = .ok (.float q, st2) →
      builtinGtOrEq ev st env [e1, e2] =
        .error ⟨"invalid argument to >: " ++ strOfVal (.float q)⟩) := by
  refine ⟨fun ev st env e1 e2 a b st1 st2 h1 h2 => ?_,
    fun ev st env e1 e2 q v2 st1 st2 h1 h2 => ?_,
    fun ev st env e1 e2 a q st1 st2 h1 h2 => ?_,
    fun ev st env e1 e2 q v2 st1 st2 h1 h2 => ?_,
    fun ev st env e1 e2 a q st1 st2 h1 h2 => ?_,
    fun ev st env e1 e2 q v2 st1 st2 h1 h2 => ?_,
    fun ev st env e1 e2 a q st1 st2 h1 h2 => ?_,
    fun ev st env e1 e2 q v2 st1 st2 h1 h2 => ?_,
    fun ev st env e1 e2 a q st1 st2 h1 h2 => ?_⟩
  · refine ⟨?_, ?_, ?_, ?_⟩ <;>
      simp [builtinLt, builtinLtOrEq, builtinGt, builtinGtOrEq, h1, h2] <;>
      split_ifs <;> simp_all
  · simp [builtinLt, h1, h2]
  · simp [builtinLt, h1, h2]
  · simp [builtinLtOrEq, h1, h2]
  · simp [builtinLtOrEq, h1, h2]
  · simp [builtinGt, h1, h2]
  · simp [builtinGt, h1, h2]
  · simp [builtinGtOrEq, h1, h2]
  · simp [builtinGtOrEq, h1, h2]

/-- Witness for C4 at `(< 1 2)` and friends. -/
theorem claim_c4_witness :
    builtinLt (Eval 1) store0 0 [.num 1, .num 2] = .ok (.atom TRUE, store0) ∧
    builtinGt (Eval 1) store0 0 [.num 1, .num 2] = .ok (.atom FALSE, store0) := by
  have h := claim_c4_comparisons.1 (Eval 1) store0 0 (.num 1) (.num 2) 1 2 store0
    store0 rfl rfl
  exact ⟨by simpa using h.1, by simpa using h.2.2.1⟩

/-- Counterexample for C4 as stated: the operands `Float 1` and
`Integer 2` both evaluate to numeric values and the ordering holds, yet
`<` fails with an invalid-argument error instead of returning true. -/
theorem claim_c4_counterexample :
    builtinLt (Eval 1) store0 0 [.float 1, .num 2] =
      .error ⟨"invalid argument to <: 1"⟩ ∧ (1 : ℚ) < 2 :=
  ⟨rfl, by norm_num⟩

/-! ## Claim C1 — the if special form -/

/-- C1 (amended): `if` with exactly three argument expressions evaluates
the condition first (propagating its error), takes branch 1 exactly when
the condition value is the Atom `true` — as the comparison builtins
return — and branch 2 on every other value, including the Boolean true
value that the global `true` is bound to; a different argument count is
an arity error. -/
theorem claim_c1_if :
    (∀ (ev : EvalFn) (st : EnvStore) (env : Nat) (c b1 b2 : LispValue)
      (st2 : EnvStore), ev st env c = .ok (.atom TRUE, st2) →
      builtinIf ev st env [c, b1, b2] = ev st2 env b1) ∧
    (∀ (ev : EvalFn) (st : EnvStore) (env : Nat) (c b1 b2 v : LispValue)
      (st2 : EnvStore), ev st env c = .ok (v, st2) → v ≠ .atom TRUE →
      builtinIf ev st env [c, b1, b2] = ev st2 env b2) ∧
    (∀ (ev : EvalFn) (st : EnvStore) (env : Nat) (c b1 b2 : LispValue)
      (err : LispError), ev st env c = .error err →
      builtinIf ev st env [c, b1, b2] = .error err) ∧
    (∀ (ev : EvalFn) (st : EnvStore) (env : Nat) (args : List LispValue),
      args.length ≠ 3 →
      builtinIf ev st env args = .error ⟨"wrong number of arguments to if"⟩) ∧
    runSource 5 "(if (< 1 2) 1 2)" = .ok (.num 1) := by
  refine ⟨fun ev st env c b1 b2 st2 h => ?_,
    fun ev st env c b1 b2 v st2 h hv => ?_,
    fun ev st env c b1 b2 err h => ?_,
    fun ev st env args h => ?_, rfl⟩
  · simp [builtinIf, h, TRUE]
  · cases v <;> simp_all [builtinIf, TRUE]
  · simp [builtinIf, h]
  · rcases args with _ | ⟨a, _ | ⟨b, _ | ⟨c, _ | ⟨d, rest⟩⟩⟩⟩ <;> simp_all [builtinIf]

/-- Witness for C1: an Atom-true condition takes branch 1, an arity
mismatch errors. -/
theorem claim_c1_witness :
    builtinIf (Eval 2) store0 0 [.list [.atom LESS_THAN, .num 1, .num 2], .num 1, .num 2] =
      .ok (.num 1, store0) ∧
    builtinIf (Eval 1) store0 0 [.num 1] =
      .error ⟨"wrong number of arguments to if"⟩ := by
  constructor
  · have h := claim_c1_if.1 (Eval 2) store0 0
      (.list [.atom LESS_THAN, .num 1, .num 2]) (.num 1) (.num 2) store0 rfl
    simpa using h
  · exact claim_c1_if.2.2.2.1 (Eval 1) store0 0 [.num 1] (by simp)

/-- Counterexample for C1 as stated: in the startup environment the
condition `true` evaluates to the Boolean true value, yet `(if true 1 2)`
selects branch 2. -/
theorem claim_c1_counterexample :
    runSource 5 "(if true 1 2)" = .ok (.num 2) ∧
    (LispValue.num 2 ≠ LispValue.num 1) :=
  ⟨rfl, by simp⟩

/-! ## Claim C2 — the list form -/

/-- C2 (amended): the `list` form returns a new runtime List holding its
raw argument expressions unevaluated; for self-evaluating literal
arguments this coincides with the list of their values, but a call
argument such as `(+ 1 2)` stays an expression. -/
theorem claim_c2_list :
    (∀ (fuel : Nat) (st : EnvStore) (env : Nat) (args : List LispValue),
      1 ≤ fuel →
      Eval fuel st env (.list (.atom LIST :: args)) = .ok (.list args, st)) ∧
    runSource 5 "(car (list 1 2 3))" = .ok (.num 1) ∧
    runSource 5 "(list 1 2)" = .ok (.list [.num 1, .num 2]) := by
  refine ⟨fun fuel st env args h => ?_, rfl, rfl⟩
  cases fuel with
  | zero => omega
  | succ f => rfl

/-- Witness for C2 at the concrete input `(list 1 2)`. -/
theorem claim_c2_witness :
    Eval 1 store0 0 (.list [.atom LIST, .num 1, .num 2]) =
      .ok (.list [.num 1, .num 2], store0) :=
  claim_c2_list.1 1 store0 0 [.num 1, .num 2] (by omega)

/-- Counterexample for C2 as stated: `(list (+ 1 2))` holds the
unevaluated call expression, not Integer 3. -/
theorem claim_c2_counterexample :
    runSource 5 "(list (+ 1 2))" =
      .ok (.list [.list [.atom PLUS, .num 1, .num 2]]) ∧
    LispValue.list [.list [.atom PLUS, .num 1, .num 2]] ≠ .list [.num 3] :=
  ⟨rfl, by simp [PLUS]⟩

/-! ## Claim C6 — arithmetic collapsing -/

/-- C6: every arithmetic builtin computes the exact value over the
numeric tower and then applies the exact-value collapsing rule
(`collapseExact`): a whole-valued result is returned as an Integer even
when a Float operand was involved, any other result as a Float.  `pow`
is covered for whole exponents and `sqrt` for arguments with a rational
square root (the exact value is irrational otherwise, which the rational
model of float64 places out of scope).  In particular `(+ 1 2)` is
Integer 3 and `(+ 2.5 12)` is Float 29/2 = 14.5. -/
theorem claim_c6_arith :
    (∀ (fuel : Nat) (st : EnvStore) (env : Nat) (vs : List LispValue), 1 ≤ fuel →
      (∀ v ∈ vs, isNumeric v = true) →
      builtinAdd (Eval fuel) st env vs =
        .ok (collapseExact (vs.foldl (fun a v => a + toQval v) 0), st)) ∧
    (∀ (fuel : Nat) (st : EnvStore) (env : Nat) (v0 : LispValue) (vs : List LispValue),
      1 ≤ fuel → isNumeric v0 = true → (∀ v ∈ vs, isNumeric v = true) →
      builtinSub (Eval fuel) st env (v0 :: vs) =
        .ok (collapseExact (vs.foldl (fun a v => a - toQval v) (toQval v0)), st)) ∧
    (∀ (fuel : Nat) (st : EnvStore) (env : Nat) (vs : List LispValue), 1 ≤ fuel →
      (∀ v ∈ vs, isNumeric v = true) →
      builtinMul (Eval fuel) st env vs =
        .ok (collapseExact (vs.foldl (fun a v => a * toQval v) 1), st)) ∧
    (∀ (fuel : Nat) (st : EnvStore) (env : Nat) (v0 : LispValue) (vs : List LispValue),
      1 ≤ fuel → isNumeric v0 = true → (∀ v ∈ vs, isNumeric v = true) →
      (∀ v ∈ vs, toQval v ≠ 0) →
      builtinDiv (Eval fuel) st env (v0 :: vs) =
        .ok (collapseExact (vs.foldl (fun a v => a / toQval v) (toQval v0)), st)) ∧
    (∀ (fuel : Nat) (st : EnvStore) (env : Nat) (b e : LispValue), 1 ≤ fuel →
      isNumeric b = true → isNumeric e = true → (toQval e).den = 1 →
      builtinPow (Eval fuel) st env [b, e] =
        .ok (collapseExact (toQval b ^ (toQval e).num), st)) ∧
    (∀ (fuel : Nat) (st : EnvStore) (env : Nat) (v : LispValue) (r : ℚ), 1 ≤ fuel →
      isNumeric v = true → 0 ≤ r → r * r = toQval v →
      builtinSqrt (Eval fuel) st env [v] = .ok (collapseExact r, st)) ∧
    (∀ (x : ℚ) (k : ℤ), x = (k : ℚ) → collapseExact x = .num k) ∧
    (∀ x : ℚ, (¬∃ k : ℤ, x = (k : ℚ)) → collapseExact x = .float x) ∧
    runSource 5 "(+ 1 2)" = .ok (.num 3) ∧
    runSource 5 "(+ 2.5 12)" = .ok (.float (mkRat 29 2)) ∧
    (mkRat 29 2 : ℚ) = 14.5 ∧
    runSource 5 "(pow 2 10)" = .ok (.num 1024) ∧
    runSource 5 "(sqrt 16)" = .ok (.num 4) := by
  refine ⟨fun fuel st env vs h hvs => ?_, fun fuel st env v0 vs h hv0 hvs => ?_,
    fun fuel st env vs h hvs => ?_, fun fuel st env v0 vs h hv0 hvs hnz => ?_,
    fun fuel st env b e h hb he hden => ?_, fun fuel st env v r h hv hr hsq => ?_,
    fun x k hk => collapseExact_whole k hk, fun x hx => collapseExact_not_whole hx,
    rfl, rfl, by rw [Rat.mkRat_eq_div]; norm_num, rfl, rfl⟩
  · simp [builtinAdd, addLoop_lits st env vs 0 h hvs]
  · cases v0 with
    | num n =>
      simp [builtinSub, eval_numeric_lit st env h (by rfl : isNumeric (.num n) = true),
        subLoop_lits st env vs _ h hvs, toQval]
    | float f =>
      simp [builtinSub, eval_numeric_lit st env h (by rfl : isNumeric (.float f) = true),
        subLoop_lits st env vs _ h hvs, toQval]
    | _ => simp [isNumeric] at hv0
  · simp [builtinMul, mulLoop_lits st env vs 1 h hvs]
  · cases v0 with
    | num n =>
      simp [builtinDiv, eval_numeric_lit st env h (by rfl : isNumeric (.num n) = true),
        divLoop_lits st env vs _ h hvs hnz, toQval]
    | float f =>
      simp [builtinDiv, eval_numeric_lit st env h (by rfl : isNumeric (.float f) = true),
        divLoop_lits st env vs _ h hvs hnz, toQval]
    | _ => simp [isNumeric] at hv0
  · cases b with
    | num bn =>
      cases e with
      | num en =>
        simp [builtinPow, builtinPow.powFinish,
          eval_numeric_lit st env h (by rfl : isNumeric (.num bn) = true),
          eval_numeric_lit st env h (by rfl : isNumeric (.num en) = true),
          mathPow_whole _ _ (Rat.den_intCast en), toQval, Rat.num_intCast]
      | float ef =>
        simp only [toQval] at hden
        simp [builtinPow, builtinPow.powFinish,
          eval_numeric_lit st env h (by rfl : isNumeric (.num bn) = true),
          eval_numeric_lit st env h (by rfl : isNumeric (.float ef) = true),
          mathPow_whole _ _ hden, toQval]
      | _ => simp [isNumeric] at he
    | float bf =>
      cases e with
      | num en =>
        simp [builtinPow, builtinPow.powFinish,
          eval_numeric_lit st env h (by rfl : isNumeric (.float bf) = true),
          eval_numeric_lit st env h (by rfl : isNumeric (.num en) = true),
          mathPow_whole _ _ (Rat.den_intCast en), toQval, Rat.num_intCast]
      | float ef =>
        simp only [toQval] at hden
        simp [builtinPow, builtinPow.powFinish,
          eval_numeric_lit st env h (by rfl : isNumeric (.float bf) = true),
          eval_numeric_lit st env h (by rfl : isNumeric (.float ef) = true),
          mathPow_whole _ _ hden, toQval]
      | _ => simp [isNumeric] at he
    | _ => simp [isNumeric] at hb
  · cases v with
    | num n =>
      simp only [toQval] at hsq
      have hq : (0 : ℚ) ≤ ((n : ℤ) : ℚ) := hsq ▸ mul_self_nonneg r
      have hnn : ¬(((n : ℤ) : ℚ).num < 0) := not_lt.mpr (Rat.num_nonneg.mpr hq)
      have hms : mathSqrt ((n : ℤ) : ℚ) = r := by
        rw [← hsq]
        exact mathSqrt_sq r hr
      have hn : (0 : ℤ) ≤ n := by exact_mod_cast hq
      simp [builtinSqrt, builtinSqrt.sqrtFinish,
        eval_numeric_lit st env h (by rfl : isNumeric (.num n) = true), hnn, hms, hn]
    | float f =>
      simp only [toQval] at hsq
      have hq : (0 : ℚ) ≤ f := hsq ▸ mul_self_nonneg r
      have hnn : ¬(f.num < 0) := not_lt.mpr (Rat.num_nonneg.mpr hq)
      have hms : mathSqrt f = r := by
        rw [← hsq]
        exact mathSqrt_sq r hr
      simp [builtinSqrt, builtinSqrt.sqrtFinish,
        eval_numeric_lit st env h (by rfl : isNumeric (.float f) = true), hnn, hms]
    | _ => simp [isNumeric] at hv

/-- Witness for C6: `(+ 1 2)` at the builtin level collapses to
Integer 3, and a fractional sum stays Float. -/
theorem claim_c6_witness :
    builtinAdd (Eval 1) store0 0 [.num 1, .num 2] = .ok (.num 3, store0) := by
  have h := claim_c6_arith.1 1 store0 0 [.num 1, .num 2] (by omega) (by decide)
  rw [h]
  have h2 : ([LispValue.num 1, LispValue.num 2].foldl
      (fun a v => a + toQval v) 0) = ((3 : ℤ) : ℚ) := by
    simp [toQval]
    norm_num
  rw [h2, collapseExact_whole 3 rfl]

/-! ## Claim C7 — division by zero -/

/-- C7 (amended): `/` on numeric operands fails with the division-by-zero
error exactly when some divisor operand evaluates to zero, and succeeds
otherwise; `%` accepts only Integer operands (a Float operand, even a
nonzero one, is an invalid-argument error, and a Float zero divisor is
also reported as invalid arguments, not as division by zero) and on
Integers fails with division-by-zero exactly when the divisor is zero.
In particular `(/ 10 0)` fails with division by zero and `(/ 10 2)` is
Integer 5. -/
theorem claim_c7_division :
    (∀ (fuel : Nat) (st : EnvStore) (env : Nat) (v0 : LispValue) (vs : List LispValue),
      1 ≤ fuel → isNumeric v0 = true → (∀ v ∈ vs, isNumeric v = true) →
      (∃ v ∈ vs, toQval v = 0) →
      builtinDiv (Eval fuel) st env (v0 :: vs) = .error ⟨"division by zero"⟩) ∧
    (∀ (fuel : Nat) (st : EnvStore) (env : Nat) (v0 : LispValue) (vs : List LispValue),
      1 ≤ fuel → isNumeric v0 = true → (∀ v ∈ vs, isNumeric v = true) →
      (∀ v ∈ vs, toQval v ≠ 0) →
      builtinDiv (Eval fuel) st env (v0 :: vs) =
        .ok (collapseExact (vs.foldl (fun a v => a / toQval v) (toQval v0)), st)) ∧
    (∀ (fuel : Nat) (st : EnvStore) (env : Nat) (a : ℤ), 1 ≤ fuel →
      builtinMod (Eval fuel) st env [.num a, .num 0] = .error ⟨"division by zero"⟩) ∧
    (∀ (fuel : Nat) (st : EnvStore) (env : Nat) (a b : ℤ), 1 ≤ fuel → b ≠ 0 →
      builtinMod (Eval fuel) st env [.num a, .num b] = .ok (.num (Int.tmod a b), st)) ∧
    runSource 5 "(/ 10 0)" = .error ⟨"division by zero"⟩ ∧
    runSource 5 "(/ 10 2)" = .ok (.num 5) := by
  refine ⟨fun fuel st env v0 vs h hv0 hvs hz => ?_,
    fun fuel st env v0 vs h hv0 hvs hnz => ?_,
    fun fuel st env a h => ?_, fun fuel st env a b h hb => ?_, rfl, rfl⟩
  · cases v0 with
    | num n =>
      simp [builtinDiv, eval_numeric_lit st env h (by rfl : isNumeric (.num n) = true),
        divLoop_zero st env vs _ h hvs hz]
    | float f =>
      simp [builtinDiv, eval_numeric_lit st env h (by rfl : isNumeric (.float f) = true),
        divLoop_zero st env vs _ h hvs hz]
    | _ => simp [isNumeric] at hv0
  · cases v0 with
    | num n =>
      simp [builtinDiv, eval_numeric_lit st env h (by rfl : isNumeric (.num n) = true),
        divLoop_lits st env vs _ h hvs hnz, toQval]
    | float f =>
      simp [builtinDiv, eval_numeric_lit st env h (by rfl : isNumeric (.float f) = true),
        divLoop_lits st env vs _ h hvs hnz, toQval]
    | _ => simp [isNumeric] at hv0
  · simp [builtinMod, eval_numeric_lit st env h (by rfl : isNumeric (.num a) = true),
      eval_numeric_lit st env h (by rfl : isNumeric (.num 0) = true)]
  · simp [builtinMod, eval_numeric_lit st env h (by rfl : isNumeric (.num a) = true),
      eval_numeric_lit st env h (by rfl : isNumeric (.num b) = true), hb]

/-- Witness for C7: `(/ 10 0)` at the builtin level and `(% 7 2)`. -/
theorem claim_c7_witness :
    builtinDiv (Eval 1) store0 0 [.num 10, .num 0] = .error ⟨"division by zero"⟩ ∧
    builtinMod (Eval 1) store0 0 [.num 7, .num 2] = .ok (.num 1, store0) := by
  constructor
  · exact claim_c7_division.1 1 store0 0 (.num 10) [.num 0] (by omega)
      (by rfl) (by decide) ⟨.num 0, by simp, by simp [toQval]⟩
  · have h := claim_c7_division.2.2.2.1 1 store0 0 7 2 (by omega) (by omega)
    simpa using h

/-- Counterexample for C7 as stated: `%` applied to the numeric operands
`Integer 5` and `Float 0` — a zero divisor — fails with the
invalid-arguments error, not with division by zero; and with the nonzero
numeric divisor `Float 2` it also fails instead of succeeding. -/
theorem claim_c7_counterexample :
    builtinMod (Eval 1) store0 0 [.num 5, .float 0] =
      .error ⟨"invalid arguments to %"⟩ ∧
    (LispError.mk "invalid arguments to %" ≠ ⟨"division by zero"⟩) ∧
    isNumeric (.float 0) = true ∧ toQval (.float 0) = 0 ∧
    builtinMod (Eval 1) store0 0 [.num 5, .float 2] =
      .error ⟨"invalid arguments to %"⟩ :=
  ⟨rfl, by decide, rfl, rfl, rfl⟩

/-! ## Claim C9 — user-function calls -/

/-- C9: a user-function call checks the arity before evaluating anything
(the error does not depend on the body or on the evaluator), evaluates
each call-site argument in the *caller's* environment (the call `(f x)`
below sees the caller's `x`, not the `x` of the captured environment),
binds parameters positionally on top of a copy of the captured
environment (the body of `g` still sees the captured `x`), and evaluates
the body there. -/
theorem claim_c9_call :
    (∀ (ev : EvalFn) (st : EnvStore) (env : Nat) (name : String)
      (opt : Option String) (params : List LispValue) (body : LispValue)
      (fref : Nat) (args : List LispValue),
      envLookup (storeGet st env) name = some (.func opt params body fref) →
      params.length ≠ args.length →
      callFunction ev st env name args =
        .error ⟨"wrong number of arguments to " ++ name⟩) ∧
    (∀ (fuel : Nat) (n : ℤ),
      callFunction (Eval (fuel + 1))
        [[("x", .num n), ("f", .func (some "f") [.atom "y"] (.atom "y") 1),
          ("g", .func (some "g") [.atom "y"] (.atom "x") 1)],
         [("x", .num 99)]] 0 "f" [.atom "x"] =
        .ok (.num n,
          [[("x", .num n), ("f", .func (some "f") [.atom "y"] (.atom "y") 1),
            ("g", .func (some "g") [.atom "y"] (.atom "x") 1)],
           [("x", .num 99)], [("x", .num 99), ("y", .num n)]])) ∧
    (∀ (fuel : Nat) (n : ℤ),
      callFunction (Eval (fuel + 1))
        [[("x", .num n), ("f", .func (some "f") [.atom "y"] (.atom "y") 1),
          ("g", .func (some "g") [.atom "y"] (.atom "x") 1)],
         [("x", .num 99)]] 0 "g" [.atom "x"] =
        .ok (.num 99,
          [[("x", .num n), ("f", .func (some "f") [.atom "y"] (.atom "y") 1),
            ("g", .func (some "g") [.atom "y"] (.atom "x") 1)],
           [("x", .num 99)], [("x", .num 99), ("y", .num n)]])) ∧
    (∀ (ev : EvalFn) (st : EnvStore) (env : Nat) (name : String)
      (args : List LispValue), envLookup (storeGet st env) name = none →
      callFunction ev st env name args =
        .error ⟨"undefined function: " ++ name⟩) := by
  refine ⟨fun ev st env name opt params body fref args hlook hlen => ?_,
    fun fuel n => rfl, fun fuel n => rfl,
    fun ev st env name args hlook => ?_⟩
  · simp [callFunction, hlook, hlen]
  · simp [callFunction, hlook]

/-- Witness for C9 at a concrete arity mismatch and a concrete call. -/
theorem claim_c9_witness :
    callFunction (Eval 1)
      [[("x", .num 7), ("f", .func (some "f") [.atom "y"] (.atom "y") 1),
        ("g", .func (some "g") [.atom "y"] (.atom "x") 1)],
       [("x", .num 99)]] 0 "f" [] =
      .error ⟨"wrong number of arguments to f"⟩ ∧
    callFunction (Eval 1)
      [[("x", .num 7), ("f", .func (some "f") [.atom "y"] (.atom "y") 1),
        ("g", .func (some "g") [.atom "y"] (.atom "x") 1)],
       [("x", .num 99)]] 0 "f" [.atom "x"] =
      .ok (.num 7,
        [[("x", .num 7), ("f", .func (some "f") [.atom "y"] (.atom "y") 1),
          ("g", .func (some "g") [.atom "y"] (.atom "x") 1)],
         [("x", .num 99)], [("x", .num 99), ("y", .num 7)]]) := by
  constructor
  · exact claim_c9_call.1 (Eval 1)
      [[("x", .num 7), ("f", .func (some "f") [.atom "y"] (.atom "y") 1),
        ("g", .func (some "g") [.atom "y"] (.atom "x") 1)],
       [("x", .num 99)]] 0 "f" (some "f") [.atom "y"] (.atom "y") 1 [] rfl (by simp)
  · exact claim_c9_call.2.1 0 7

/-! ## Claim C8 — sequential let binding -/

theorem storeSet_append_length (st : EnvStore) (m m' : Environment) :
    storeSet (st ++ [m]) st.length m' = st ++ [m'] := by
  induction st with
  | nil => rfl
  | cons a rest ih => simp [storeSet, ih]

/-- C8: each `let` binding is evaluated in the local environment already
holding the previously bound names of the same `let` — for any starting
environment and any integer `n`, `(let ((a n) (b (+ a 1))) b)` yields
`n + 1`, so the second binding saw the first — and the body runs in the
fully-bound environment; `(let ((a 10) (b 20)) (+ a b))` is Integer 30
and `(let ((a 1) (b (+ a 1))) b)` is Integer 2. -/
theorem claim_c8_let :
    (∀ (n : ℤ) (fuel : Nat) (st : EnvStore) (env : Nat), 3 ≤ fuel →
      ∃ st' : EnvStore,
        Eval fuel st env
          (.list [.atom LET,
            .list [.list [.atom "a", .num n],
                   .list [.atom "b", .list [.atom PLUS, .atom "a", .num 1]]],
            .atom "b"]) = .ok (.num (n + 1), st')) ∧
    runSource 9 "(let ((a 10) (b 20)) (+ a b))" = .ok (.num 30) ∧
    runSource 9 "(let ((a 1) (b (+ a 1))) b)" = .ok (.num 2) := by
  refine ⟨fun n fuel st env hf => ?_, rfl, rfl⟩
  obtain ⟨f, rfl⟩ : ∃ f, fuel = f + 3 := ⟨fuel - 3, by omega⟩
  set m : Environment := storeGet st env with hm
  set m1 : Environment := envSet m "a" (.num n) with hm1
  set m2 : Environment := envSet m1 "b" (.num (n + 1)) with hm2
  refine ⟨st ++ [m2], ?_⟩
  have e1 : Eval (f + 2) (st ++ [m]) st.length (.num n) =
      .ok (.num n, st ++ [m]) := eval_numeric_lit _ _ (by omega) rfl
  have ea : Eval (f + 1) (st ++ [m1]) st.length (.atom "a") =
      .ok (.num n, st ++ [m1]) := by
    cases f with
    | zero =>
      apply eval_atom_found
      rw [storeGet_append_length, hm1]
      exact envLookup_envSet_self m "a" (.num n)
    | succ f' =>
      apply eval_atom_found
      rw [storeGet_append_length, hm1]
      exact envLookup_envSet_self m "a" (.num n)
  have elit : Eval (f + 1) (st ++ [m1]) st.length (.num 1) =
      .ok (.num 1, st ++ [m1]) := eval_numeric_lit _ _ (by omega) rfl
  have hsum : qAdd (qAdd 0 ((n : ℤ) : ℚ)) (((1 : ℤ) : ℚ)) = (((n + 1 : ℤ)) : ℚ) := by
    rw [qAdd_eq, qAdd_eq]
    push_cast
    ring
  have e2 : Eval (f + 2) (st ++ [m1]) st.length
      (.list [.atom PLUS, .atom "a", .num 1]) = .ok (.num (n + 1), st ++ [m1]) := by
    rw [show f + 2 = (f + 1) + 1 from rfl, eval_dispatch_add]
    simp only [builtinAdd, addLoop, ea, elit, hsum]
    rw [collapseExact_whole (n + 1) rfl]
  have eb : Eval (f + 2) (st ++ [m2]) st.length (.atom "b") =
      .ok (.num (n + 1), st ++ [m2]) := by
    rw [show f + 2 = (f + 1) + 1 from rfl]
    apply eval_atom_found
    rw [storeGet_append_length, hm2]
    exact envLookup_envSet_self m1 "b" (.num (n + 1))
  rw [show f + 3 = (f + 2) + 1 from rfl, eval_dispatch_let]
  simp only [builtinLet, letLoop, e1, e2, storeGet_append_length,
    storeSet_append_length, ← hm1, ← hm2, eb]

/-- Witness for C8 at `n = 41`. -/
theorem claim_c8_witness :
    ∃ st' : EnvStore,
      Eval 3 store0 0
        (.list [.atom LET,
          .list [.list [.atom "a", .num 41],
                 .list [.atom "b", .list [.atom PLUS, .atom "a", .num 1]]],
          .atom "b"]) = .ok (.num 42, st') :=
  claim_c8_let.1 41 3 store0 0 (by omega)

/-! ## Decimal digits round-trip (towards the C3 round-trip theorem) -/

/-- Reference form of the decimal digits (recursion on the value; the
fuel-based `natToDigits` is proved equal to it). -/
def digitsSpec (n : Nat) : List Char :=
  if n < 10 then [digitChar n] else digitsSpec (n / 10) ++ [digitChar (n % 10)]
termination_by n
decreasing_by exact Nat.div_lt_self (by omega) (by omega)

theorem natDigitsAux_spec (fuel : Nat) : ∀ n acc, n < fuel →
    natDigitsAux fuel n acc = digitsSpec n ++ acc := by
  induction fuel with
  | zero => omega
  | succ f ih =>
    intro n acc hn
    rw [natDigitsAux]
    by_cases h10 : n < 10
    · rw [if_pos h10, digitsSpec, if_pos h10]
      rfl
    · rw [if_neg h10, digitsSpec, if_neg h10,
        ih (n / 10) _ (by omega), List.append_assoc]
      rfl

theorem natToDigits_eq_spec (n : Nat) : natToDigits n = digitsSpec n := by
  rw [natToDigits, natDigitsAux_spec (n + 1) n [] (by omega), List.append_nil]

theorem digitChar_toNat {d : Nat} (hd : d < 10) : (digitChar d).toNat = 48 + d := by
  interval_cases d <;> decide

theorem isDigitChar_digitChar {d : Nat} (hd : d < 10) :
    isDigitChar (digitChar d) = true := by
  interval_cases d <;> decide

theorem digitsSpec_ne_nil (n : Nat) : digitsSpec n ≠ [] := by
  rw [digitsSpec]
  split <;> simp

theorem digitsSpec_all_digit (n : Nat) : (digitsSpec n).all isDigitChar = true := by
  induction n using Nat.strong_induction_on with
  | _ n ih =>
    rw [digitsSpec]
    by_cases h10 : n < 10
    · simp [h10, isDigitChar_digitChar h10]
    · rw [if_neg h10]
      simp only [List.all_append]
      rw [ih (n / 10) (Nat.div_lt_self (by omega) (by omega))]
      simp [isDigitChar_digitChar (show n % 10 < 10 by omega)]

theorem digitsToNat_append_one (cs : List Char) (c : Char) :
    digitsToNat (cs ++ [c]) = digitsToNat cs * 10 + (c.toNat - 48) := by
  simp [digitsToNat, List.foldl_append]

theorem digitsToNat_digitsSpec (n : Nat) : digitsToNat (digitsSpec n) = n := by
  induction n using Nat.strong_induction_on with
  | _ n ih =>
    rw [digitsSpec]
    by_cases h10 : n < 10
    · simp [h10, digitsToNat, digitChar_toNat h10]
    · rw [if_neg h10, digitsToNat_append_one,
        ih (n / 10) (Nat.div_lt_self (by omega) (by omega)),
        digitChar_toNat (show n % 10 < 10 by omega)]
      omega

/-- The rendered digits of an integer, by sign. -/
theorem intToString_data (n : Int) :
    (intToString n).data =
      if n < 0 then '-' :: digitsSpec n.natAbs else digitsSpec n.toNat := by
  rw [intToString]
  split <;> simp [natToDigits_eq_spec]

theorem digit_not_sign {c : Char} (hc : isDigitChar c = true) :
    c ≠ '+' ∧ c ≠ '-' ∧ c ≠ '.' := by
  refine ⟨?_, ?_, ?_⟩ <;> rintro rfl <;> exact absurd hc (by decide)

/-- Model of `strconv.Atoi` applied to the model of `strconv.Itoa`. -/
theorem atoiModel_intToString (n : Int) : atoiModel (intToString n) = some n := by
  have hall := digitsSpec_all_digit
  by_cases hn : n < 0
  · rw [atoiModel, intToString_data, if_pos hn]
    have hdig : (digitsSpec n.natAbs).all isDigitChar = true := hall n.natAbs
    simp only
    rw [if_neg (by decide), if_pos trivial,
      if_pos (by simp [hdig, digitsSpec_ne_nil n.natAbs]), digitsToNat_digitsSpec]
    congr 1
    omega
  · rw [atoiModel, intToString_data, if_neg hn]
    have hne := digitsSpec_ne_nil n.toNat
    cases hd : digitsSpec n.toNat with
    | nil => exact absurd hd hne
    | cons c cs =>
      have hcd : isDigitChar c = true := by
        have h2 := hd ▸ hall n.toNat
        simp only [List.all_cons, Bool.and_eq_true] at h2
        exact h2.1
      obtain ⟨h1, h2, _⟩ := digit_not_sign hcd
      simp only
      rw [if_neg h1, if_neg h2]
      have hdig : (c :: cs).all isDigitChar = true := hd ▸ hall n.toNat
      rw [if_pos hdig, show c :: cs = digitsSpec n.toNat from hd.symm,
        digitsToNat_digitsSpec]
      congr 1
      omega

theorem atoiGo_intToString (n : Int) : atoiGo (intToString n) = n := by
  rw [atoiGo, atoiModel_intToString]
  rfl

/-! ## Lexeme classification of rendered integers and good atoms -/

theorem digitsSpec_head_digit (n : Nat) :
    ∃ c cs, digitsSpec n = c :: cs ∧ isDigitChar c = true := by
  cases hd : digitsSpec n with
  | nil => exact absurd hd (digitsSpec_ne_nil n)
  | cons c cs =>
    refine ⟨c, cs, rfl, ?_⟩
    have h2 := hd ▸ digitsSpec_all_digit n
    simp only [List.all_cons, Bool.and_eq_true] at h2
    exact h2.1

theorem dropSign_of_digits {cs : List Char} (h : cs.all isDigitChar = true) :
    dropSign cs = cs := by
  cases cs with
  | nil => rfl
  | cons c rest =>
    simp only [List.all_cons, Bool.and_eq_true] at h
    obtain ⟨h1, h2, _⟩ := digit_not_sign h.1
    rw [dropSign, if_neg h1, if_neg h2]

theorem decMantissaOk_digits {cs : List Char} (hne : cs ≠ [])
    (h : cs.all isDigitChar = true) : decMantissaOk cs = true := by
  have hall : ∀ x ∈ cs, isDigitChar x = true := List.all_eq_true.mp h
  have htake : cs.takeWhile isDigitChar = cs := List.takeWhile_eq_self_iff.mpr hall
  have hdrop : cs.dropWhile isDigitChar = [] := List.dropWhile_eq_nil_iff.mpr hall
  rw [decMantissaOk]
  simp only [htake, hdrop]
  simp [hne, expOptOk]

/-- The rendered digits of an integer parse as a Go float, so the lexer
classifies them numerically. -/
theorem parseFloatOk_intToString (n : Int) : parseFloatOk (intToString n) = true := by
  rw [parseFloatOk]
  by_cases hn : n < 0
  · have hdata : (intToString n).data = '-' :: digitsSpec n.natAbs := by
      rw [intToString_data, if_pos hn]
    rw [hdata]
    have hds : dropSign ('-' :: digitsSpec n.natAbs) = digitsSpec n.natAbs := by
      rw [dropSign, if_neg (by decide), if_pos rfl]
    rw [hds]
    simp [decMantissaOk_digits (digitsSpec_ne_nil n.natAbs) (digitsSpec_all_digit _)]
  · have hdata : (intToString n).data = digitsSpec n.toNat := by
      rw [intToString_data, if_neg hn]
    rw [hdata, dropSign_of_digits (digitsSpec_all_digit _)]
    simp [decMantissaOk_digits (digitsSpec_ne_nil n.toNat) (digitsSpec_all_digit _)]

theorem intToString_no_dot (n : Int) : '.' ∉ (intToString n).data := by
  intro hx
  rw [intToString_data] at hx
  split at hx
  · rcases List.mem_cons.mp hx with he | hmem
    · exact absurd he (by decide)
    · exact absurd (List.all_eq_true.mp (digitsSpec_all_digit _) _ hmem) (by decide)
  · exact absurd (List.all_eq_true.mp (digitsSpec_all_digit _) _ hx) (by decide)

theorem intToString_ne_word (n : Int) {w : String} (hw : w.data ≠ [])
    (hwd : isDigitChar (w.data.headD ' ') = false)
    (hwm : w.data.headD ' ' ≠ '-') : intToString n ≠ w := by
  intro he
  have hdata := congrArg String.data he
  rw [intToString_data] at hdata
  split at hdata
  · cases hw' : w.data with
    | nil => exact hw hw'
    | cons c cs =>
      rw [hw'] at hdata
      have : '-' = c := (List.cons.injEq _ _ _ _).mp hdata |>.1
      exact hwm (by simp [hw', ← this])
  · obtain ⟨c, cs, hcs, hc⟩ := digitsSpec_head_digit n.toNat
    rw [hcs] at hdata
    cases hw' : w.data with
    | nil => exact hw hw'
    | cons c' cs' =>
      rw [hw'] at hdata
      have hcc : c = c' := (List.cons.injEq _ _ _ _).mp hdata |>.1
      rw [hw'] at hwd
      simp only [List.headD] at hwd
      rw [← hcc, hc] at hwd
      exact Bool.noConfusion hwd

/-- `createToken` classifies a rendered integer as a NUMBER token. -/
theorem createToken_intToString (n : Int) :
    createToken (intToString n) = ⟨NUMBER, intToString n⟩ := by
  rw [createToken,
    if_neg (by
      simp only [Bool.or_eq_true, decide_eq_true_eq]
      rintro (he | he)
      · exact intToString_ne_word n (by decide) (by decide) (by decide) he
      · exact intToString_ne_word n (by decide) (by decide) (by decide) he),
    if_neg (intToString_ne_word n (by decide) (by decide) (by decide)),
    if_pos (parseFloatOk_intToString n), if_neg (by simp [intToString_no_dot n])]

/-- `createToken` classifies a good atom name as an IDENTIFIER token. -/
theorem createToken_goodAtom {a : String} (h1 : a ≠ TRUE) (h2 : a ≠ FALSE)
    (h3 : a ≠ NIL) (h4 : parseFloatOk a = false) :
    createToken a = ⟨IDENTIFIER, a⟩ := by
  rw [createToken, if_neg (by simp [h1, h2]), if_neg (by simp [h3]),
    if_neg (by simp [h4])]

/-! ## The well-formed values of the C3 round trip

The round trip as claimed fails (see the counterexample); the amended
claim restricts it to values whose rendering the lexer re-reads as the
same shape: no Float or Function component, string contents without
quote or backslash, and atom names that are non-empty, contain no
whitespace, bracket, quote or backslash character, are not the `true` /
`false` / `nil` keywords and are not numeric lexemes. -/

/-- Characters that accumulate into a pending lexeme unchanged. -/
def goodChar (c : Char) : Bool :=
  !isSpaceGo c && !(c = OPEN_BRACKET) && !(c = CLOSE_BRACKET) &&
    !(c = DOUBLE_QUOTE) && !(c = DOUBLE_ANTI_SLASH)

/-- Characters that pass through a string literal unchanged. -/
def goodStrChar (c : Char) : Bool := !(c = DOUBLE_QUOTE) && !(c = DOUBLE_ANTI_SLASH)

mutual

/-- The well-formed values of the amended round-trip claim. -/
def goodVal : LispValue → Bool
  | .num _ => true
  | .bool _ => true
  | .nil => true
  | .str s => s.data.all goodStrChar
  | .atom a =>
    !(a = TRUE) && !(a = FALSE) && !(a = NIL) && !parseFloatOk a &&
      !a.data.isEmpty && a.data.all goodChar
  | .list xs => goodList xs
  | .float _ => false
  | .func _ _ _ _ => false

/-- `goodVal` on every element. -/
def goodList : List LispValue → Bool
  | [] => true
  | x :: xs => goodVal x && goodList xs

end

/-- An open-paren token as the lexer emits it. -/
def openTok : Token := ⟨openParenS, openParenS⟩

/-- A close-paren token as the lexer emits it. -/
def closeTok : Token := ⟨closeParenS, closeParenS⟩

/-- The pending lexeme left in the scanner after a value's rendering
(empty for the self-flushing string and list renderings). -/
def pendOf : LispValue → List Char
  | .num n => (intToString n).data
  | .atom a => a.data
  | .bool b => if b then TRUE.data else FALSE.data
  | .nil => NIL.data
  | _ => []

/-- The token the trailing pending lexeme flushes to, if any. -/
def flushOf (v : LispValue) : List Token :=
  if (pendOf v).isEmpty then [] else [createToken ⟨pendOf v⟩]

mutual

/-- The tokens emitted while scanning a value's rendering (before the
trailing pending lexeme is flushed). -/
def preToks : LispValue → List Token
  | .str s => [⟨STRING, s⟩]
  | .list xs => openTok :: joinToks xs ++ [closeTok]
  | _ => []

/-- All tokens of a sequence of rendered values. -/
def joinToks : List LispValue → List Token
  | [] => []
  | x :: xs => (preToks x ++ flushOf x) ++ joinToks xs

end

/-- The full token sequence of a value's rendering. -/
def toksOf (v : LispValue) : List Token := preToks v ++ flushOf v

/-- Scanning characters of a pending lexeme just accumulates them. -/
theorem tokRun_plain (cs : List Char) (h : cs.all goodChar = true) :
    ∀ (T : List Token) (p : List Char),
      cs.foldl tokStep ⟨T, p, false, false⟩ = ⟨T, p ++ cs, false, false⟩ := by
  induction cs with
  | nil => intro T p; simp
  | cons c rest ih =>
    intro T p
    simp only [List.all_cons, Bool.and_eq_true] at h
    obtain ⟨hc, hrest⟩ := h
    simp only [goodChar, Bool.and_eq_true, Bool.not_eq_true',
      decide_eq_false_iff_not] at hc
    obtain ⟨⟨⟨⟨hsp, hob⟩, hcb⟩, hq⟩, hbs⟩ := hc
    have hstep : tokStep ⟨T, p, false, false⟩ c = ⟨T, p ++ [c], false, false⟩ := by
      rw [tokStep, if_neg (by simp [hsp]), if_neg (by simp [hob, hcb]),
        if_neg hq, if_neg hbs]
    rw [List.foldl_cons, hstep, ih hrest T (p ++ [c]), List.append_assoc]
    rfl

/-- Scanning string-literal content accumulates it unchanged. -/
theorem tokRun_inString (cs : List Char) (h : cs.all goodStrChar = true) :
    ∀ (T : List Token) (p : List Char),
      cs.foldl tokStep ⟨T, p, true, false⟩ = ⟨T, p ++ cs, true, false⟩ := by
  induction cs with
  | nil => intro T p; simp
  | cons c rest ih =>
    intro T p
    simp only [List.all_cons, Bool.and_eq_true] at h
    obtain ⟨hc, hrest⟩ := h
    simp only [goodStrChar, Bool.and_eq_true, Bool.not_eq_true',
      decide_eq_false_iff_not] at hc
    obtain ⟨hq, hbs⟩ := hc
    have hstep : tokStep ⟨T, p, true, false⟩ c = ⟨T, p ++ [c], true, false⟩ := by
      rw [tokStep]
      by_cases hsp : isSpaceGo c = true
      · rw [if_pos (by simp [hsp])]
        simp
      · rw [if_neg (by simp [hsp])]
        by_cases hob : c = OPEN_BRACKET
        · rw [if_pos (by simp [hob])]
          simp
        · by_cases hcb : c = CLOSE_BRACKET
          · rw [if_pos (by simp [hcb])]
            simp
          · rw [if_neg (by simp [hob, hcb]), if_neg hq, if_neg hbs]
    rw [List.foldl_cons, hstep, ih hrest T (p ++ [c]), List.append_assoc]
    rfl

theorem tokStep_space (T : List Token) (p : List Char) :
    tokStep ⟨T, p, false, false⟩ ' ' =
      ⟨T ++ if p.isEmpty then [] else [createToken ⟨p⟩], [], false, false⟩ := by
  by_cases hp : p.isEmpty
  · obtain rfl : p = [] := by simpa using hp
    have h : tokStep ⟨T, [], false, false⟩ ' ' = ⟨T, [], false, false⟩ := rfl
    rw [h]
    simp
  · rw [tokStep, if_pos (by decide), if_pos (by simp [hp]), flushPending,
      if_neg hp]
    simp [hp]

theorem tokStep_close (T : List Token) (p : List Char) :
    tokStep ⟨T, p, false, false⟩ ')' =
      ⟨(T ++ if p.isEmpty then [] else [createToken ⟨p⟩]) ++ [closeTok],
        [], false, false⟩ := by
  by_cases hp : p.isEmpty
  · obtain rfl : p = [] := by simpa using hp
    have h : tokStep ⟨T, [], false, false⟩ ')' =
        ⟨T ++ [closeTok], [], false, false⟩ := rfl
    rw [h]
    simp
  · rw [tokStep, if_neg (by decide), if_pos (by decide), if_neg (by simp),
      flushPending, if_neg hp]
    simp [hp, closeTok, closeParenS]
    rfl

theorem goodChar_of_digit {c : Char} (h : isDigitChar c = true) :
    goodChar c = true := by
  have hn : 48 ≤ c.toNat ∧ c.toNat ≤ 57 := by simpa [isDigitChar] using h
  have hsp : isSpaceGo c = false := by
    cases hs : isSpaceGo c with
    | false => rfl
    | true =>
      simp only [isSpaceGo, Bool.or_eq_true, decide_eq_true_eq] at hs
      omega
  simp only [goodChar, Bool.and_eq_true, Bool.not_eq_true', hsp,
    decide_eq_false_iff_not, true_and]
  refine ⟨⟨⟨?_, ?_⟩, ?_⟩, ?_⟩ <;> rintro rfl <;> exact absurd h (by decide)

theorem intToString_all_goodChar (n : Int) :
    (intToString n).data.all goodChar = true := by
  rw [intToString_data]
  have hds : ∀ m : Nat, (digitsSpec m).all goodChar = true := fun m =>
    List.all_eq_true.mpr fun c hc =>
      goodChar_of_digit (List.all_eq_true.mp (digitsSpec_all_digit m) c hc)
  split
  · simp only [List.all_cons, Bool.and_eq_true]
    exact ⟨by decide, hds _⟩
  · exact hds _

mutual

/-- Scanning the rendering of a good value from a clean scanner state
emits exactly its pre-tokens and leaves exactly its pending lexeme. -/
theorem tokFold_val (v : LispValue) (hg : goodVal v = true) (T : List Token) :
    (render v).foldl tokStep ⟨T, [], false, false⟩ =
      ⟨T ++ preToks v, pendOf v, false, false⟩ := by
  cases v with
  | num n =>
    rw [render, tokRun_plain _ (intToString_all_goodChar n) T []]
    simp [preToks, pendOf]
  | atom a =>
    have ha : a.data.all goodChar = true := by
      simp only [goodVal, Bool.and_eq_true] at hg
      exact hg.2
    rw [render, tokRun_plain _ ha T []]
    simp [preToks, pendOf]
  | bool b =>
    cases b <;>
      rw [render] <;>
      simp only [if_true, if_false, Bool.false_eq_true] <;>
      rw [tokRun_plain _ (by decide) T []] <;>
      simp [preToks, pendOf]
  | nil =>
    rw [render, tokRun_plain _ (by decide) T []]
    simp [preToks, pendOf]
  | str s =>
    have hs : s.data.all goodStrChar = true := hg
    have h1 : tokStep ⟨T, [], false, false⟩ DOUBLE_QUOTE = ⟨T, [], true, false⟩ := rfl
    have h2 : tokStep ⟨T, s.data, true, false⟩ DOUBLE_QUOTE =
        ⟨T ++ [⟨STRING, s⟩], [], false, false⟩ := by
      rw [tokStep, if_neg (by decide), if_neg (by decide), if_pos (by simp)]
      simp
    rw [render, List.cons_append, List.foldl_cons, h1, List.foldl_append,
      tokRun_inString s.data hs T [], List.foldl_cons, List.nil_append, h2]
    simp [preToks, pendOf]
  | list xs =>
    have h1 : tokStep ⟨T, [], false, false⟩ OPEN_BRACKET =
        ⟨T ++ [openTok], [], false, false⟩ := rfl
    rw [render, List.cons_append, List.foldl_cons, h1,
      tokFold_join xs hg (T ++ [openTok])]
    simp [preToks, pendOf]
  | float f => exact absurd hg (by simp [goodVal])
  | func name params body envRef => exact absurd hg (by simp [goodVal])

/-- Scanning the space-joined renderings of good values followed by the
closing paren emits all their tokens and the close token. -/
theorem tokFold_join (xs : List LispValue) (hg : goodList xs = true)
    (T : List Token) :
    (renderJoin xs ++ [CLOSE_BRACKET]).foldl tokStep ⟨T, [], false, false⟩ =
      ⟨T ++ joinToks xs ++ [closeTok], [], false, false⟩ := by
  match xs with
  | [] =>
    rw [renderJoin]
    simp only [List.nil_append, List.foldl_cons, List.foldl_nil]
    rw [show (CLOSE_BRACKET : Char) = ')' from rfl, tokStep_close T []]
    simp [joinToks]
  | [x] =>
    have hx : goodVal x = true := by
      simp only [goodList, Bool.and_eq_true] at hg
      exact hg.1
    rw [renderJoin, List.foldl_append, tokFold_val x hx T, List.foldl_cons,
      List.foldl_nil, show (CLOSE_BRACKET : Char) = ')' from rfl,
      tokStep_close (T ++ preToks x) (pendOf x)]
    simp [joinToks, flushOf, toksOf, List.append_assoc]
  | x :: y :: rest =>
    have hx : goodVal x = true := by
      simp only [goodList, Bool.and_eq_true] at hg
      exact hg.1
    have hyr : goodList (y :: rest) = true := by
      simp only [goodList, Bool.and_eq_true] at hg ⊢
      exact hg.2
    rw [renderJoin, show EMPTY_STRING.data = [' '] from rfl, List.append_assoc,
      List.append_assoc, List.foldl_append, tokFold_val x hx T,
      List.singleton_append, List.foldl_cons,
      tokStep_space (T ++ preToks x) (pendOf x), tokFold_join (y :: rest) hyr _]
    simp [joinToks, flushOf, List.append_assoc]

end

/-- Tokenizing the rendering of a good value yields exactly its token
sequence. -/
theorem Tokenize_render (v : LispValue) (hg : goodVal v = true) :
    Tokenize (strOfVal v) = toksOf v := by
  rw [Tokenize, show (strOfVal v).data = render v from rfl, tokFold_val v hg [],
    flushPending, toksOf, flushOf]
  by_cases hp : (pendOf v).isEmpty
  · simp [hp]
  · simp [hp]

/-! ## Parsing the token sequence of a good value -/

theorem intToString_data_ne_nil (n : Int) : (intToString n).data ≠ [] := by
  rw [intToString_data]
  split
  · simp
  · exact digitsSpec_ne_nil _

theorem toksOf_num (n : Int) : toksOf (.num n) = [⟨NUMBER, intToString n⟩] := by
  have hne : ¬((intToString n).data.isEmpty = true) := by
    simp [List.isEmpty_iff, intToString_data_ne_nil n]
  show preToks (.num n) ++ flushOf (.num n) = _
  rw [show preToks (.num n) = [] from rfl,
    show flushOf (.num n) =
      if (intToString n).data.isEmpty then []
      else [createToken ⟨(intToString n).data⟩] from rfl,
    if_neg hne, List.nil_append,
    show (⟨(intToString n).data⟩ : String) = intToString n from rfl,
    createToken_intToString]

theorem toksOf_atom {a : String} (h1 : a ≠ TRUE) (h2 : a ≠ FALSE) (h3 : a ≠ NIL)
    (h4 : parseFloatOk a = false) (h5 : a.data ≠ []) :
    toksOf (.atom a) = [⟨IDENTIFIER, a⟩] := by
  have hne : ¬(a.data.isEmpty = true) := by simp [List.isEmpty_iff, h5]
  show preToks (.atom a) ++ flushOf (.atom a) = _
  rw [show preToks (.atom a) = [] from rfl,
    show flushOf (.atom a) =
      if a.data.isEmpty then [] else [createToken ⟨a.data⟩] from rfl,
    if_neg hne, List.nil_append, show (⟨a.data⟩ : String) = a from rfl,
    createToken_goodAtom h1 h2 h3 h4]

theorem toksOf_str (s : String) : toksOf (.str s) = [⟨STRING, s⟩] := rfl

theorem toksOf_bool (b : Bool) :
    toksOf (.bool b) = [⟨BOOLEAN, if b then TRUE else FALSE⟩] := by
  cases b <;> rfl

theorem toksOf_nil : toksOf .nil = [⟨NIL, NIL⟩] := rfl

theorem toksOf_list (xs : List LispValue) :
    toksOf (.list xs) = openTok :: (joinToks xs ++ [closeTok]) := by
  show preToks (.list xs) ++ flushOf (.list xs) = _
  rw [show flushOf (.list xs) = [] from rfl, List.append_nil,
    show preToks (.list xs) = openTok :: joinToks xs ++ [closeTok] from rfl]
  simp

/-- The first token of a good value's sequence is never a close paren
(this is what keeps the element loop of the parser going). -/
theorem toksOf_head (v : LispValue) (hg : goodVal v = true) :
    ∃ t ts, toksOf v = t :: ts ∧ t.type ≠ closeParenS := by
  cases v with
  | num n =>
    exact ⟨_, _, toksOf_num n, by show NUMBER ≠ closeParenS; decide⟩
  | atom a =>
    simp only [goodVal, Bool.and_eq_true, Bool.not_eq_true',
      decide_eq_false_iff_not] at hg
    obtain ⟨⟨⟨⟨⟨h1, h2⟩, h3⟩, h4⟩, h5⟩, _⟩ := hg
    exact ⟨_, _, toksOf_atom h1 h2 h3 h4 (by simpa using h5),
      by show IDENTIFIER ≠ closeParenS; decide⟩
  | str s => exact ⟨_, _, toksOf_str s, by show STRING ≠ closeParenS; decide⟩
  | bool b => exact ⟨_, _, toksOf_bool b, by show BOOLEAN ≠ closeParenS; decide⟩
  | nil => exact ⟨_, _, toksOf_nil, by show NIL ≠ closeParenS; decide⟩
  | list xs =>
    exact ⟨_, _, toksOf_list xs, by show openParenS ≠ closeParenS; decide⟩
  | float f => exact absurd hg (by simp [goodVal])
  | func name params body envRef => exact absurd hg (by simp [goodVal])

mutual

/-- The parser consumes exactly the token sequence of a good value and
rebuilds the value, leaving the trailing tokens. -/
theorem parseExpr_toks (v : LispValue) (hg : goodVal v = true) :
    ∀ (fuel : Nat) (rest : List Token), 2 * (toksOf v).length ≤ fuel →
      parseExpr fuel (toksOf v ++ rest) = .ok (v, rest) := by
  cases v with
  | num n =>
    intro fuel rest hf
    rw [toksOf_num n] at hf ⊢
    obtain ⟨f, rfl⟩ : ∃ f, fuel = f + 1 := ⟨fuel - 1, by simp at hf; omega⟩
    have hstep : parseExpr (f + 1) (⟨NUMBER, intToString n⟩ :: rest) =
        .ok (.num (atoiGo (intToString n)), rest) := rfl
    rw [List.singleton_append, hstep, atoiGo_intToString]
  | atom a =>
    intro fuel rest hf
    have hg' := hg
    simp only [goodVal, Bool.and_eq_true, Bool.not_eq_true',
      decide_eq_false_iff_not] at hg'
    obtain ⟨⟨⟨⟨⟨h1, h2⟩, h3⟩, h4⟩, h5⟩, _⟩ := hg'
    rw [toksOf_atom h1 h2 h3 h4 (by simpa using h5)] at hf ⊢
    obtain ⟨f, rfl⟩ : ∃ f, fuel = f + 1 := ⟨fuel - 1, by simp at hf; omega⟩
    rw [List.singleton_append]
    rfl
  | str s =>
    intro fuel rest hf
    rw [toksOf_str s] at hf ⊢
    obtain ⟨f, rfl⟩ : ∃ f, fuel = f + 1 := ⟨fuel - 1, by simp at hf; omega⟩
    rw [List.singleton_append]
    rfl
  | bool b =>
    intro fuel rest hf
    rw [toksOf_bool b] at hf ⊢
    obtain ⟨f, rfl⟩ : ∃ f, fuel = f + 1 := ⟨fuel - 1, by simp at hf; omega⟩
    cases b <;> rw [List.singleton_append] <;> rfl
  | nil =>
    intro fuel rest hf
    rw [toksOf_nil] at hf ⊢
    obtain ⟨f, rfl⟩ : ∃ f, fuel = f + 1 := ⟨fuel - 1, by simp at hf; omega⟩
    rw [List.singleton_append]
    rfl
  | list xs =>
    intro fuel rest hf
    rw [toksOf_list xs] at hf ⊢
    simp only [List.length_cons, List.length_append, List.length_cons,
      List.length_nil] at hf
    obtain ⟨f, rfl⟩ : ∃ f, fuel = f + 1 := ⟨fuel - 1, by omega⟩
    rw [List.cons_append, List.append_assoc, List.singleton_append]
    have hstep : parseExpr (f + 1) (openTok :: (joinToks xs ++ closeTok :: rest)) =
        parseElems f (joinToks xs ++ closeTok :: rest) [] := rfl
    rw [hstep, parseElems_toks xs hg f rest [] (by omega)]
    simp
  | float f =>
    intro fuel rest hf
    exact absurd hg (by simp [goodVal])
  | func name params body envRef =>
    intro fuel rest hf
    exact absurd hg (by simp [goodVal])

/-- The element loop of the parser consumes the joined token sequences of
good values up to the matching close paren. -/
theorem parseElems_toks (xs : List LispValue) (hg : goodList xs = true) :
    ∀ (fuel : Nat) (rest : List Token) (acc : List LispValue),
      2 * (joinToks xs).length + 1 ≤ fuel →
      parseElems fuel (joinToks xs ++ closeTok :: rest) acc =
        .ok (.list (acc ++ xs), rest) := by
  cases xs with
  | nil =>
    intro fuel rest acc hf
    obtain ⟨f, rfl⟩ : ∃ f, fuel = f + 1 := ⟨fuel - 1, by omega⟩
    rw [joinToks, List.nil_append]
    have hstep : parseElems (f + 1) (closeTok :: rest) acc =
        .ok (.list acc, rest) := rfl
    rw [hstep]
    simp
  | cons x xs' =>
    intro fuel rest acc hf
    have hx : goodVal x = true := by
      simp only [goodList, Bool.and_eq_true] at hg
      exact hg.1
    have hxs' : goodList xs' = true := by
      simp only [goodList, Bool.and_eq_true] at hg
      exact hg.2
    rw [joinToks, show preToks x ++ flushOf x = toksOf x from rfl] at hf ⊢
    obtain ⟨t, ts, ht, htype⟩ := toksOf_head x hx
    have hlen : 1 ≤ (toksOf x).length := by
      rw [ht]
      simp
    simp only [List.length_append] at hf
    obtain ⟨f, rfl⟩ : ∃ f, fuel = f + 1 := ⟨fuel - 1, by omega⟩
    rw [List.append_assoc, ht, List.cons_append, parseElems,
      if_neg (by simpa using htype), ← List.cons_append, ← ht,
      ← List.append_assoc, List.append_assoc,
      parseExpr_toks x hx f _ (by omega)]
    show parseElems f (joinToks xs' ++ closeTok :: rest) (acc ++ [x]) =
      Except.ok (.list (acc ++ x :: xs'), rest)
    rw [parseElems_toks xs' hxs' f rest (acc ++ [x]) (by omega)]
    simp

end

/-! ## Claim C3 — the render/tokenize/parse round trip -/

/-- C3 (amended): for every well-formed value `v` (`goodVal`: no Float or
Function component, string contents free of quote and backslash, and atom
names that are non-empty, keyword-free, non-numeric and free of the
lexer's delimiter characters), parsing the tokenization of `v`'s textual
rendering reproduces `v` exactly and consumes all tokens. -/
theorem claim_c3_roundtrip (v : LispValue) (hg : goodVal v = true) :
    Parse (Tokenize (strOfVal v)) = .ok (v, []) := by
  rw [Tokenize_render v hg, Parse, ← List.append_nil (toksOf v)]
  exact parseExpr_toks v hg _ [] (by simp)

/-- Witness for C3 at a nested concrete value exercising every good
variant. -/
theorem claim_c3_witness :
    Parse (Tokenize (strOfVal (.list [.num 42, .num (-7), .str "hi there",
      .atom "foo", .bool true, .bool false, .nil, .list [], .list [.num 1]]))) =
      .ok (.list [.num 42, .num (-7), .str "hi there", .atom "foo", .bool true,
        .bool false, .nil, .list [], .list [.num 1]], []) :=
  claim_c3_roundtrip _ (by decide)

/-- Counterexample for C3 as stated: the Atom `true` contains no
floating-point component, yet its rendering re-parses as the Boolean
true value, which is not structurally equal to it. -/
theorem claim_c3_counterexample :
    Parse (Tokenize (strOfVal (.atom TRUE))) = .ok (.bool true, []) ∧
    LispValue.bool true ≠ .atom TRUE :=
  ⟨rfl, by simp⟩

/-! ## Claim C5 — parser error behaviour -/

/-- A non-open-paren first token is always consumed successfully as a
single value. -/
theorem parseExpr_nonbracket {t : Token} (f : Nat) (toks : List Token)
    (h : t.type ≠ openParenS) :
    ∃ v, parseExpr (f + 1) (t :: toks) = .ok (v, toks) := by
  rw [parseExpr, if_neg h]
  split_ifs <;> exact ⟨_, rfl⟩

/-- Exhausting bracket-free tokens inside an open list reaches the
unexpected-EOF error. -/
theorem parseElems_all_plain (ts : List Token)
    (h : ∀ t ∈ ts, t.type ≠ closeParenS ∧ t.type ≠ openParenS) :
    ∀ (fuel : Nat) (acc : List LispValue), ts.length + 1 ≤ fuel →
      parseElems fuel ts acc = .error unexpectedEOF := by
  induction ts with
  | nil =>
    intro fuel acc hf
    obtain ⟨f, rfl⟩ : ∃ f, fuel = f + 1 := ⟨fuel - 1, by omega⟩
    rfl
  | cons t rest ih =>
    intro fuel acc hf
    simp only [List.length_cons] at hf
    obtain ⟨f, rfl⟩ : ∃ f, fuel = f + 1 := ⟨fuel - 1, by omega⟩
    obtain ⟨hc, ho⟩ := h t (by simp)
    obtain ⟨f', rfl⟩ : ∃ f', f = f' + 1 := ⟨f - 1, by omega⟩
    obtain ⟨v, hv⟩ := parseExpr_nonbracket f' rest ho
    rw [parseElems, if_neg hc, hv]
    show parseElems (f' + 1) rest (acc ++ [v]) = .error unexpectedEOF
    exact ih (fun t' ht' => h t' (by simp [ht'])) (f' + 1) (acc ++ [v]) (by omega)

/-- C5 (amended): `Parse` of an empty token sequence, and of an open list
never closed (here: an open paren followed by any bracket-free tokens, and
the concrete programs `"("` and `"(+ 1 2"`), fails with the
unexpected-EOF error; but a lone close-paren first token is *not* an
error: it parses as the identifier Atom `")"` (the source has no
UnexpectedCloseParen error at all). -/
theorem claim_c5_parse_errors :
    Parse [] = .error unexpectedEOF ∧
    (∀ ts : List Token, (∀ t ∈ ts, t.type ≠ closeParenS ∧ t.type ≠ openParenS) →
      Parse (openTok :: ts) = .error unexpectedEOF) ∧
    (∀ ts : List Token, Parse (closeTok :: ts) = .ok (.atom closeParenS, ts)) ∧
    Parse (Tokenize "(") = .error unexpectedEOF ∧
    Parse (Tokenize "(+ 1 2") = .error unexpectedEOF := by
  refine ⟨rfl, fun ts h => ?_, fun ts => ?_, rfl, rfl⟩
  · rw [Parse, show 2 * (openTok :: ts).length + 2 = (2 * ts.length + 3) + 1 by
      simp; omega]
    show parseElems (2 * ts.length + 3) ts [] = .error unexpectedEOF
    exact parseElems_all_plain ts h _ [] (by omega)
  · rw [Parse, show 2 * (closeTok :: ts).length + 2 = (2 * ts.length + 3) + 1 by
      simp; omega]
    rfl

/-- Witness for C5 at a concrete unclosed input. -/
theorem claim_c5_witness :
    Parse (openTok :: [Token.mk NUMBER "1"]) = .error unexpectedEOF ∧
    Parse (closeTok :: [Token.mk NUMBER "1"]) =
      .ok (.atom closeParenS, [Token.mk NUMBER "1"]) :=
  ⟨claim_c5_parse_errors.2.1 [Token.mk NUMBER "1"]
      (by intro t ht; constructor <;> simp_all <;> subst ht <;> decide),
   claim_c5_parse_errors.2.2.1 [Token.mk NUMBER "1"]⟩

/-- Counterexample for C5 as stated: the token sequence whose first token
is a lone close paren parses *successfully*, producing the Atom `")"`
(no UnexpectedCloseParen error exists in the source). -/
theorem claim_c5_counterexample :
    Parse [Token.mk closeParenS closeParenS] = .ok (.atom closeParenS, []) ∧
    (∀ e : LispError, Parse [Token.mk closeParenS closeParenS] ≠ .error e) :=
  ⟨rfl, fun e h => by
    have h2 : Parse [Token.mk closeParenS closeParenS] =
        .ok (.atom closeParenS, []) := rfl
    rw [h2] at h
    exact Except.noConfusion h⟩

end LispGo
